import Mathlib

/-!
Verification development for the NanoServe / C-HTTP payment server
(`src/src/http_parser.c`, `src/src/connection.c`, the response builder and
task queue in the unnamed translation units).

Byte strings are modelled as `List Char` (all inputs of interest are ASCII,
so one `Char` stands for one byte).  C functions returning `0 / -1` are
modelled as `Option`-valued Lean functions (`none` = failure).  Machine
integers (`size_t`, `unsigned long`) are modelled as `Nat` with explicit
`% 2^64` where C wraparound matters.
-/

set_option maxRecDepth 10000

namespace NanoServe

abbrev Chars := List Char

/-- The `"\r\n"` byte pair. -/
def crlf : Chars := ['\r', '\n']

/-- The blank-line terminator `"\r\n\r\n"`. -/
def crlf2 : Chars := ['\r', '\n', '\r', '\n']

/-- The whitespace set trimmed by `trim_whitespace` in `http_parser.c`
(space, tab, CR, LF — bytes 32, 9, 13, 10). -/
def isWS (c : Char) : Bool :=
  c.toNat = 32 || c.toNat = 9 || c.toNat = 13 || c.toNat = 10

/-- `trim_whitespace` from `http_parser.c`: strips the characters of `isWS`
from both ends, in place. -/
def wsTrim (l : Chars) : Chars :=
  ((l.dropWhile isWS).reverse.dropWhile isWS).reverse

/-- Accumulator worker for `tokenize`; `acc` holds the current token in
reverse. -/
def tokenizeAux (p : Char → Bool) : Chars → Chars → List Chars
  | [], acc => if acc.isEmpty then [] else [acc.reverse]
  | c :: t, acc =>
    if p c then
      (if acc.isEmpty then tokenizeAux p t [] else acc.reverse :: tokenizeAux p t [])
    else tokenizeAux p t (c :: acc)

/-- `strtok_r` tokenization: split on the delimiter set `p`, never producing
empty tokens (runs of delimiters collapse, leading/trailing delimiters are
skipped). -/
def tokenize (p : Char → Bool) (l : Chars) : List Chars := tokenizeAux p l []

/-- Tokens of the request line: `strtok_r(line_copy, " ", ...)`. -/
def spaceTokens (l : Chars) : List Chars := tokenize (fun c => c = ' ') l

/-- Header-section lines: `strtok_r(header_copy, "\r\n", ...)` splits on any
run of CR/LF bytes. -/
def headerLines (l : Chars) : List Chars := tokenize (fun c => c = '\r' || c = '\n') l

/-- Truncation of the request line at the first CR or LF
(`strchr(line_copy, '\r')` / `strchr(line_copy, '\n')` in
`parse_request_line`). -/
def stripCRLF (l : Chars) : Chars := l.takeWhile (fun c => c ≠ '\r' && c ≠ '\n')

/-! ### HTTP methods and versions (`http_parser.h`) -/

inductive Method where
  | unknown | get | post | put | delete | head | options | patch
  deriving DecidableEq, Repr

inductive Version where
  | unknown | v10 | v11
  deriving DecidableEq, Repr

/-- `http_string_to_method` from `http_parser.c`. -/
def http_string_to_method (s : Chars) : Method :=
  if s = "GET".toList then .get
  else if s = "POST".toList then .post
  else if s = "PUT".toList then .put
  else if s = "DELETE".toList then .delete
  else if s = "HEAD".toList then .head
  else if s = "OPTIONS".toList then .options
  else if s = "PATCH".toList then .patch
  else .unknown

/-- `http_method_to_string` from `http_parser.c`. -/
def http_method_to_string : Method → Chars
  | .get => "GET".toList
  | .post => "POST".toList
  | .put => "PUT".toList
  | .delete => "DELETE".toList
  | .head => "HEAD".toList
  | .options => "OPTIONS".toList
  | .patch => "PATCH".toList
  | .unknown => "UNKNOWN".toList

/-! ### Size limits (`http_parser.h`, `connection.h`) -/

def MAX_HEADERS : Nat := 64
def MAX_URI_LENGTH : Nat := 2048
def MAX_HEADER_NAME_LENGTH : Nat := 256
def MAX_HEADER_VALUE_LENGTH : Nat := 8192
def MAX_IDEMPOTENCY_KEY_LENGTH : Nat := 256
def MAX_REQUEST_BODY_SIZE : Nat := 1048576

/-! ### `parse_request_line` (`http_parser.c`, lines 142-233) -/

/-- Result of a successful `parse_request_line`: the fields it writes into
`http_request_t`. -/
structure RequestLine where
  method : Method
  uri : Chars
  version : Version
  deriving DecidableEq, Repr

/-- `parse_request_line` from `http_parser.c`.  The C function first rejects
lines of `MAX_URI_LENGTH + 256` bytes or more, strips everything from the
first CR or LF, then takes three space-separated tokens: method (an
unrecognized token is a warning, parsed as `unknown`), URI (must start with
`/` and be shorter than `MAX_URI_LENGTH`), and version (exactly `HTTP/1.1`
or `HTTP/1.0`; anything else fails).  A fourth token is only a warning. -/
def parse_request_line (line : Chars) : Option RequestLine :=
  if MAX_URI_LENGTH + 256 ≤ line.length then none
  else
    match (spaceTokens (stripCRLF line))[0]?, (spaceTokens (stripCRLF line))[1]?,
        (spaceTokens (stripCRLF line))[2]? with
    | some m, some u, some v =>
      if u.head? ≠ some '/' then none
      else if MAX_URI_LENGTH ≤ u.length then none
      else if v = "HTTP/1.1".toList then some ⟨http_string_to_method m, u, .v11⟩
      else if v = "HTTP/1.0".toList then some ⟨http_string_to_method m, u, .v10⟩
      else none
    | _, _, _ => none

/-! ### `strstr` / `strchr` splitting -/

/-- `strstr`-style search: split `s` at the first occurrence of `pat`,
returning the part before and the part after the occurrence. -/
def splitFirst (pat : Chars) : Chars → Option (Chars × Chars)
  | [] => if pat.isPrefixOf ([] : Chars) then some ([], []) else none
  | c :: t =>
    if pat.isPrefixOf (c :: t) then some ([], (c :: t).drop pat.length)
    else (splitFirst pat t).map (fun r => (c :: r.1, r.2))

/-- ASCII lower-casing, as `strcasecmp` does. -/
def asciiLower (c : Char) : Char :=
  if 'A' ≤ c ∧ c ≤ 'Z' then Char.ofNat (c.toNat + 32) else c

/-- `strcasecmp(a, b) == 0`. -/
def caseEq (a b : Chars) : Bool := a.map asciiLower = b.map asciiLower

/-! ### Decimal numbers and `strtoul` -/

def ULONG_MAX : Nat := 2 ^ 64 - 1

/-- Value of a list of decimal digit characters. -/
def digitsVal (l : Chars) : Nat := l.foldl (fun a c => a * 10 + (c.toNat - 48)) 0

/-- The whitespace set skipped by `strtoul` (C `isspace`): space, `\t`,
`\n`, `\v`, `\f`, `\r`. -/
def isCSpace (c : Char) : Bool :=
  c.toNat = 32 || c.toNat = 9 || c.toNat = 10 || c.toNat = 11 || c.toNat = 12 || c.toNat = 13

/-- C `isdigit`. -/
def isDigitC (c : Char) : Bool := 48 ≤ c.toNat && c.toNat ≤ 57

/-- `strtoul(s, &endptr, 10)` on a 64-bit `unsigned long`, returning the
parsed value and the remainder the `endptr` points at.  Skips C whitespace,
accepts one optional `+`/`-` sign, converts the following digit run
(saturating at `ULONG_MAX` on overflow, negating modulo `2^64` after `-`),
and, when no digits are found, performs no conversion (`endptr` is the
original pointer). -/
def strtoul10 (s : Chars) : Nat × Chars :=
  let s1 := s.dropWhile isCSpace
  let neg : Bool := s1.head? = some '-'
  let s2 := if s1.head? = some '-' ∨ s1.head? = some '+' then s1.tail else s1
  let ds := s2.takeWhile isDigitC
  let rest := s2.dropWhile isDigitC
  if ds = [] then (0, s)
  else
    let m := digitsVal ds
    if ULONG_MAX < m then (ULONG_MAX, rest)
    else if neg then ((2 ^ 64 - m) % 2 ^ 64, rest)
    else (m, rest)

/-! ### `parse_headers` (`http_parser.c`, lines 272-400) -/

/-- The header-derived fields of `http_request_t` written by
`parse_headers`. -/
structure HeaderFields where
  headers : List (Chars × Chars)
  content_length : Nat
  idempotency_key : Chars
  has_idempotency_key : Bool
  deriving DecidableEq, Repr

def initHeaderFields : HeaderFields := ⟨[], 0, [], false⟩

/-- One iteration of the header loop in `parse_headers`: split the line at
the first `:` (no colon: skip), trim name and value, skip empty names, fail
on over-long names, truncate over-long values, fail when at the header-count
cap, store the header, and extract the `X-Idempotency-Key` and
`Content-Length` fields (case-insensitive). -/
def procLine (st : HeaderFields) (line : Chars) : Option HeaderFields :=
  match splitFirst [':'] line with
  | none => some st
  | some (rawName, rawValue) =>
    let name := wsTrim rawName
    let value0 := wsTrim rawValue
    if name.length = 0 then some st
    else if MAX_HEADER_NAME_LENGTH ≤ name.length then none
    else
      let value := value0.take (MAX_HEADER_VALUE_LENGTH - 1)
      if MAX_HEADERS ≤ st.headers.length then none
      else
        let st1 : HeaderFields := { st with headers := st.headers ++ [(name, value)] }
        let st2 : HeaderFields :=
          if caseEq name "X-Idempotency-Key".toList then
            { st1 with idempotency_key := value.take (MAX_IDEMPOTENCY_KEY_LENGTH - 1),
                       has_idempotency_key := true }
          else st1
        if caseEq name "Content-Length".toList then
          let r := strtoul10 value
          if r.2 = [] then some { st2 with content_length := r.1 }
          else some { st2 with content_length := 0 }
        else some st2

def parseHeaderLoop : List Chars → HeaderFields → Option HeaderFields
  | [], st => some st
  | l :: rest, st =>
    match procLine st l with
    | none => none
    | some st' => parseHeaderLoop rest st'

/-- `parse_headers` from `http_parser.c`: split the section into lines on
CR/LF runs and run the header loop on a zeroed field set. -/
def parse_headers (sec : Chars) : Option HeaderFields :=
  parseHeaderLoop (headerLines sec) initHeaderFields

/-! ### Basic lemmas about the string helpers -/

theorem takeWhile_eq_self_of (q : Char → Bool) (l : Chars) (h : ∀ c ∈ l, q c = true) :
    l.takeWhile q = l := by
  induction l with
  | nil => rfl
  | cons c t ih =>
    rw [List.takeWhile_cons, if_pos (h c (by simp))]
    rw [ih (fun x hx => h x (by simp [hx]))]

theorem tokenize_nil (p : Char → Bool) : tokenize p [] = [] := rfl

/-- A leading delimiter is skipped. -/
theorem tokenize_delim (p : Char → Bool) (c : Char) (t : Chars) (h : p c = true) :
    tokenize p (c :: t) = tokenize p t := by
  simp [tokenize, tokenizeAux, h]

theorem tokenizeAux_chunk (p : Char → Bool) (chunk rest : Chars)
    (hc : ∀ c ∈ chunk, p c = false)
    (hr : ∀ d, rest.head? = some d → p d = true) :
    ∀ acc : Chars, acc.reverse ++ chunk ≠ [] →
      tokenizeAux p (chunk ++ rest) acc = (acc.reverse ++ chunk) :: tokenize p rest := by
  induction chunk with
  | nil =>
    intro acc hne
    have hacc : acc.isEmpty = false := by
      cases acc with
      | nil => simp at hne
      | cons a t => rfl
    cases rest with
    | nil => simp [tokenizeAux, hacc, tokenize]
    | cons d t =>
      have hd : p d = true := hr d rfl
      simp [tokenizeAux, hacc, hd, tokenize]
  | cons c cs ih =>
    intro acc _
    have hpc : p c = false := hc c (by simp)
    rw [List.cons_append, tokenizeAux, hpc]
    simp only [Bool.false_eq_true, if_false]
    rw [ih (fun x hx => hc x (by simp [hx])) (c :: acc) (by simp)]
    simp

/-- A maximal run of non-delimiter characters is one token. -/
theorem tokenize_chunk (p : Char → Bool) (chunk rest : Chars) (hne : chunk ≠ [])
    (hc : ∀ c ∈ chunk, p c = false)
    (hr : ∀ d, rest.head? = some d → p d = true) :
    tokenize p (chunk ++ rest) = chunk :: tokenize p rest := by
  have := tokenizeAux_chunk p chunk rest hc hr [] (by simpa using hne)
  simpa [tokenize] using this

/-- A final run of non-delimiter characters is the last token. -/
theorem tokenize_last_chunk (p : Char → Bool) (chunk : Chars) (hne : chunk ≠ [])
    (hc : ∀ c ∈ chunk, p c = false) :
    tokenize p chunk = [chunk] := by
  have := tokenize_chunk p chunk [] hne hc (by simp)
  simpa using this

theorem forall_mem_of_all (q : Char → Bool) (l : Chars) (h : l.all q = true) :
    ∀ c ∈ l, q c = true :=
  List.all_eq_true.1 h

theorem head?_of_all (q : Char → Bool) (l : Chars) (h : l.head?.all q = true) :
    ∀ d, l.head? = some d → q d = true := by
  cases l with
  | nil => intro d hd; simp at hd
  | cons c t =>
    intro d hd
    have hcd : c = d := by simpa using hd
    subst hcd
    simpa using h

/-! ## Claim C4: `parse_request_line` success condition -/

/-- A request line over-length in total but with well-formed tokens:
2294 copies of `a` (the method token), URI `/`, version `HTTP/1.1` —
2305 bytes in all, which `parse_request_line` rejects at its
`line_len >= sizeof(line_copy)` check before ever tokenizing. -/
def longRequestLine : Chars := List.replicate 2294 'a' ++ " / HTTP/1.1".toList

theorem longRequestLine_tokens :
    spaceTokens (stripCRLF longRequestLine) =
      [List.replicate 2294 'a', ['/'], "HTTP/1.1".toList] := by
  have hall : ∀ c ∈ " / HTTP/1.1".toList,
      (fun c => c ≠ '\r' && c ≠ '\n') c = true := forall_mem_of_all _ _ (by decide)
  have hstrip : stripCRLF longRequestLine = longRequestLine := by
    unfold stripCRLF longRequestLine
    refine takeWhile_eq_self_of _ _ (fun c hc => ?_)
    rcases List.mem_append.1 hc with h | h
    · rw [List.eq_of_mem_replicate h]; decide
    · exact hall c h
  rw [hstrip]
  unfold longRequestLine spaceTokens
  rw [tokenize_chunk (fun c => c = ' ') (List.replicate 2294 'a') (" / HTTP/1.1".toList)
    (by simp) (fun c hc => by rw [List.eq_of_mem_replicate hc]; decide)
    (head?_of_all _ _ (by decide))]
  congr 1

/-- Claim C4, counterexample: `longRequestLine` satisfies every condition the
claim gives for success (three space-separated tokens, second token `/`
starting with `/` and within the URI bound, third token exactly `HTTP/1.1`),
yet `parse_request_line` fails, because the claim omits the parser's
whole-line length bound of `MAX_URI_LENGTH + 256 = 2304` bytes. -/
theorem parse_request_line_length_counterexample :
    (∃ u v, (spaceTokens (stripCRLF longRequestLine))[1]? = some u ∧
       (spaceTokens (stripCRLF longRequestLine))[2]? = some v ∧
       u.head? = some '/' ∧ u.length < MAX_URI_LENGTH ∧
       (v = "HTTP/1.1".toList ∨ v = "HTTP/1.0".toList)) ∧
    parse_request_line longRequestLine = none := by
  have hlen : MAX_URI_LENGTH + 256 ≤ longRequestLine.length := by
    have h : longRequestLine.length = 2305 := by
      unfold longRequestLine
      rw [List.length_append, List.length_replicate]
      decide
    rw [h]; decide
  constructor
  · refine ⟨['/'], "HTTP/1.1".toList, ?_, ?_, rfl, by decide, Or.inl rfl⟩
    · rw [longRequestLine_tokens]
      rfl
    · rw [longRequestLine_tokens]
      rfl
  · unfold parse_request_line
    rw [if_pos hlen]

/-- Claim C4 (amended): `parse_request_line` succeeds exactly when the line
is shorter than `MAX_URI_LENGTH + 256` bytes in total AND (after truncation
at the first CR or LF) it contains at least three space-separated tokens
whose second token starts with `/` and is shorter than the URI bound and
whose third token is exactly `HTTP/1.0` or `HTTP/1.1`; tokens beyond the
third produce only a warning, never a failure, and any other version string
makes the whole parse fail. -/
theorem parse_request_line_success_iff (line : Chars) :
    (parse_request_line line).isSome = true ↔
      (line.length < MAX_URI_LENGTH + 256 ∧
       ∃ u v, (spaceTokens (stripCRLF line))[1]? = some u ∧
         (spaceTokens (stripCRLF line))[2]? = some v ∧
         u.head? = some '/' ∧ u.length < MAX_URI_LENGTH ∧
         (v = "HTTP/1.1".toList ∨ v = "HTTP/1.0".toList)) := by
  unfold parse_request_line
  rcases Nat.lt_or_ge line.length (MAX_URI_LENGTH + 256) with hlen | hlen
  · rw [if_neg (by omega)]
    rcases h2 : (spaceTokens (stripCRLF line))[2]? with _ | v
    · rcases h0 : (spaceTokens (stripCRLF line))[0]? with _ | m <;>
        rcases h1 : (spaceTokens (stripCRLF line))[1]? with _ | u <;>
          simp only [h0, h1, h2] <;> simp [hlen]
    · have hlt : 2 < (spaceTokens (stripCRLF line)).length :=
        (List.getElem?_eq_some.1 h2).1
      have h0 : (spaceTokens (stripCRLF line))[0]? =
          some (spaceTokens (stripCRLF line))[0] := List.getElem?_eq_getElem (by omega)
      have h1 : (spaceTokens (stripCRLF line))[1]? =
          some (spaceTokens (stripCRLF line))[1] := List.getElem?_eq_getElem (by omega)
      rw [h0, h1]
      dsimp only
      by_cases hslash : (spaceTokens (stripCRLF line))[1].head? = some '/'
      · by_cases hulen : MAX_URI_LENGTH ≤ (spaceTokens (stripCRLF line))[1].length
        · rw [if_neg (by simp [hslash]), if_pos hulen]
          simp only [Option.isSome_none, Bool.false_eq_true, false_iff]
          rintro ⟨-, u, v', hu, hv', -, hul, -⟩
          injection hu with hu
          subst hu
          omega
        · rw [if_neg (by simp [hslash]), if_neg hulen]
          by_cases h11 : v = "HTTP/1.1".toList
          · rw [if_pos h11]
            simp only [Option.isSome_some, true_iff]
            exact ⟨hlen, _, v, rfl, rfl, hslash, by omega, Or.inl h11⟩
          · rw [if_neg h11]
            by_cases h10 : v = "HTTP/1.0".toList
            · rw [if_pos h10]
              simp only [Option.isSome_some, true_iff]
              exact ⟨hlen, _, v, rfl, rfl, hslash, by omega, Or.inr h10⟩
            · rw [if_neg h10]
              simp only [Option.isSome_none, Bool.false_eq_true, false_iff]
              rintro ⟨-, u, v', hu, hv', -, -, hv⟩
              injection hv' with hv'
              subst hv'
              tauto
      · rw [if_pos (by simp [hslash])]
        simp only [Option.isSome_none, Bool.false_eq_true, false_iff]
        rintro ⟨-, u, v', hu, hv', hus, -, -⟩
        injection hu with hu
        subst hu
        exact hslash hus
  · rw [if_pos (by omega)]
    simp only [Option.isSome_none, Bool.false_eq_true, false_iff]
    rintro ⟨h, -⟩
    omega

/-! ### Lemmas about `splitFirst` and header lines -/

/-- No CR or LF byte occurs in `l`. -/
def noCRLF (l : Chars) : Bool := l.all (fun c => c ≠ '\r' && c ≠ '\n')

theorem noColon_of_all (l : Chars) (h : l.all (fun c => c ≠ ':') = true) :
    ∀ c ∈ l, c ≠ ':' := by
  intro c hc
  simpa using forall_mem_of_all _ _ h c hc

theorem mem_noCRLF (l : Chars) (h : noCRLF l = true) :
    ∀ c ∈ l, (c = '\r' || c = '\n') = false := by
  intro c hc
  have := forall_mem_of_all _ _ h c hc
  simp only [Bool.and_eq_true, decide_eq_true_eq] at this
  simp [this.1, this.2]

theorem splitFirst_at_start (pat s : Chars) (h : pat.isPrefixOf s = true) :
    splitFirst pat s = some ([], s.drop pat.length) := by
  cases s with
  | nil =>
    have : pat = [] := by simpa using h
    subst this
    rfl
  | cons c t => simp [splitFirst, h]

theorem splitFirst_append_chunk (pat a s : Chars) (p0 : Char)
    (hp : pat.head? = some p0) (ha : ∀ c ∈ a, c ≠ p0) :
    splitFirst pat (a ++ s) = (splitFirst pat s).map (fun r => (a ++ r.1, r.2)) := by
  induction a with
  | nil => simp
  | cons c t ih =>
    have hpre : pat.isPrefixOf (c :: (t ++ s)) = false := by
      cases pat with
      | nil => simp at hp
      | cons p pt =>
        have hp0 : p = p0 := by simpa using hp
        have hne : ¬(p = c) := by
          rw [hp0]
          intro hh
          exact ha c (by simp) hh.symm
        simp [List.isPrefixOf, hne]
    rw [List.cons_append, splitFirst, hpre]
    simp only [Bool.false_eq_true, if_false]
    rw [ih (fun x hx => ha x (by simp [hx]))]
    cases splitFirst pat s <;> simp

/-- Splitting at the first colon of `name ++ ":" ++ rest` for a colon-free
`name`. -/
theorem splitFirst_colon (name rest : Chars) (h : ∀ c ∈ name, c ≠ ':') :
    splitFirst [':'] (name ++ ':' :: rest) = some (name, rest) := by
  rw [splitFirst_append_chunk [':'] name (':' :: rest) ':' rfl h]
  rw [splitFirst_at_start [':'] (':' :: rest) (by simp [List.isPrefixOf])]
  simp

theorem splitFirst_none_of_no_colon (l : Chars) (h : ∀ c ∈ l, c ≠ ':') :
    splitFirst [':'] l = none := by
  have := splitFirst_append_chunk [':'] l [] ':' rfl h
  simpa using this

/-- A single CRLF-free header line followed by `"\r\n"` is one line. -/
theorem headerLines_single (l : Chars) (hne : l ≠ [])
    (hl : ∀ c ∈ l, (c = '\r' || c = '\n') = false) :
    headerLines (l ++ crlf) = [l] := by
  unfold headerLines
  rw [tokenize_chunk _ l crlf hne hl (by intro d hd; injection hd with hd; subst hd; rfl)]
  rfl

/-! ## Claim C5: `Content-Length` extraction -/

theorem isCSpace_eq_false_of_isDigitC (c : Char) (h : isDigitC c = true) :
    isCSpace c = false := by
  unfold isDigitC at h
  unfold isCSpace
  simp only [Bool.and_eq_true, decide_eq_true_eq] at h
  simp only [Bool.or_eq_false_iff, decide_eq_false_iff_not]
  omega

theorem ne_sign_of_isDigitC (c : Char) (h : isDigitC c = true) :
    c ≠ '-' ∧ c ≠ '+' := by
  unfold isDigitC at h
  simp only [Bool.and_eq_true, decide_eq_true_eq] at h
  constructor
  · intro hc; subst hc; exact absurd h (by decide)
  · intro hc; subst hc; exact absurd h (by decide)

/-- `strtoul` on a pure digit string: the whole string is consumed and the
value saturates at `ULONG_MAX`. -/
theorem strtoul10_all_digits (w : Chars) (hne : w ≠ [])
    (hd : ∀ c ∈ w, isDigitC c = true) :
    strtoul10 w = (if ULONG_MAX < digitsVal w then ULONG_MAX else digitsVal w, []) := by
  unfold strtoul10
  dsimp only
  have h1 : w.dropWhile isCSpace = w := by
    cases w with
    | nil => rfl
    | cons c t =>
      rw [List.dropWhile_cons, if_neg]
      simp [isCSpace_eq_false_of_isDigitC c (hd c (by simp))]
  rw [h1]
  have hsign : ¬(w.head? = some '-' ∨ w.head? = some '+') := by
    cases w with
    | nil => simp at hne
    | cons c t =>
      have := ne_sign_of_isDigitC c (hd c (by simp))
      simp [this.1, this.2]
  rw [if_neg hsign]
  rw [takeWhile_eq_self_of _ _ hd, List.dropWhile_eq_nil_iff.2 hd, if_neg hne]
  have hnegf : decide (w.head? = some '-') = false :=
    decide_eq_false (fun hh => hsign (Or.inl hh))
  rw [hnegf]
  by_cases hU : ULONG_MAX < digitsVal w
  · rw [if_pos hU, if_pos hU]
  · rw [if_neg hU, if_neg hU]
    simp

/-- `strtoul` on `-digits`: the whole string is consumed and the value is
the two's-complement wraparound of the magnitude. -/
theorem strtoul10_neg_digits (ds : Chars) (hne : ds ≠ [])
    (hd : ∀ c ∈ ds, isDigitC c = true) (hsat : digitsVal ds ≤ ULONG_MAX) :
    strtoul10 ('-' :: ds) = ((2 ^ 64 - digitsVal ds) % 2 ^ 64, []) := by
  unfold strtoul10
  dsimp only
  have h1 : ('-' :: ds).dropWhile isCSpace = '-' :: ds := by
    rw [List.dropWhile_cons, if_neg (by decide)]
  rw [h1]
  rw [if_pos (Or.inl rfl : ('-' :: ds).head? = some '-' ∨ ('-' :: ds).head? = some '+')]
  simp only [List.tail_cons]
  rw [takeWhile_eq_self_of _ _ hd, List.dropWhile_eq_nil_iff.2 hd, if_neg hne,
    if_neg (Nat.not_lt.2 hsat)]
  simp

/-- Reduction of `parse_headers` on a single `Content-Length` header line:
the extracted `content_length` is the `strtoul` value when `strtoul`
consumed the whole trimmed value and zero otherwise. -/
theorem parse_headers_CL_single (v : Chars) (hv : noCRLF v = true)
    (hvlen : (wsTrim v).length ≤ MAX_HEADER_VALUE_LENGTH - 1) :
    parse_headers ("Content-Length:".toList ++ v ++ crlf) =
      some { headers := [("Content-Length".toList, wsTrim v)],
             content_length :=
               if (strtoul10 (wsTrim v)).2 = [] then (strtoul10 (wsTrim v)).1 else 0,
             idempotency_key := [],
             has_idempotency_key := false } := by
  have hlines : headerLines (("Content-Length:".toList ++ v) ++ crlf) =
      ["Content-Length:".toList ++ v] := by
    refine headerLines_single _ (by simp) (fun c hc => ?_)
    rcases List.mem_append.1 hc with h | h
    · exact mem_noCRLF _ (by decide) c h
    · exact mem_noCRLF _ hv c h
  unfold parse_headers
  rw [hlines]
  unfold parseHeaderLoop
  have hcolon : "Content-Length:".toList ++ v = "Content-Length".toList ++ ':' :: v := by
    rw [show "Content-Length:".toList = "Content-Length".toList ++ [':'] from by decide]
    simp
  unfold procLine
  rw [hcolon, splitFirst_colon "Content-Length".toList v
    (noColon_of_all _ (by decide))]
  dsimp only
  rw [show wsTrim "Content-Length".toList = "Content-Length".toList from by decide]
  rw [if_neg (by decide), if_neg (by decide)]
  rw [List.take_of_length_le hvlen]
  rw [if_neg (show ¬MAX_HEADERS ≤ initHeaderFields.headers.length from by decide)]
  simp only [show caseEq "Content-Length".toList "X-Idempotency-Key".toList = false from
      by decide,
    show caseEq "Content-Length".toList "Content-Length".toList = true from by decide,
    Bool.false_eq_true, if_false, if_true]
  by_cases hr : (strtoul10 (wsTrim v)).2 = []
  · rw [if_pos hr, if_pos hr]
    rfl
  · rw [if_neg hr, if_neg hr]
    rfl

/-- Claim C5, counterexample: the header `Content-Length: -5` is a negative
(hence invalid per the claim) value, but `parse_headers` stores the 64-bit
wraparound `2^64 - 5`, not zero: `strtoul` accepts a leading minus sign and
negates in unsigned arithmetic, and the code checks only that the whole
string was consumed. -/
theorem content_length_negative_counterexample :
    (parse_headers "Content-Length: -5\r\n".toList).map (·.content_length) =
      some 18446744073709551611 ∧ (18446744073709551611 : Nat) ≠ 0 := by
  constructor
  · decide
  · decide

/-- Claim C5 (amended): for a `Content-Length` header, `parse_headers`
stores the decimal value for valid non-negative decimal values (saturating
at `ULONG_MAX` on overflow), stores the unsigned wraparound
`(2^64 - v) % 2^64` for a fully-consumed negated decimal `-v`, and stores
zero exactly when `strtoul` leaves unconsumed characters behind (the only
check the code performs). -/
theorem parse_headers_content_length (v : Chars) (hv : noCRLF v = true)
    (hvlen : (wsTrim v).length ≤ MAX_HEADER_VALUE_LENGTH - 1) :
    ∃ st, parse_headers ("Content-Length:".toList ++ v ++ crlf) = some st ∧
      ((wsTrim v ≠ [] ∧ ∀ c ∈ wsTrim v, isDigitC c = true) →
        st.content_length = min (digitsVal (wsTrim v)) ULONG_MAX) ∧
      (∀ ds, wsTrim v = '-' :: ds → ds ≠ [] → (∀ c ∈ ds, isDigitC c = true) →
        digitsVal ds ≤ ULONG_MAX →
        st.content_length = (2 ^ 64 - digitsVal ds) % 2 ^ 64) ∧
      ((strtoul10 (wsTrim v)).2 ≠ [] → st.content_length = 0) := by
  refine ⟨_, parse_headers_CL_single v hv hvlen, ?_, ?_, ?_⟩
  · rintro ⟨hne, hd⟩
    dsimp only
    rw [strtoul10_all_digits _ hne hd]
    dsimp only
    rw [if_pos rfl]
    rcases Nat.lt_or_ge ULONG_MAX (digitsVal (wsTrim v)) with h | h
    · rw [if_pos h, Nat.min_eq_right (Nat.le_of_lt h)]
    · rw [if_neg (Nat.not_lt.2 h), Nat.min_eq_left h]
  · intro ds hds hne hd hsat
    dsimp only
    rw [hds, strtoul10_neg_digits ds hne hd hsat]
    dsimp only
    rw [if_pos rfl]
  · intro hrest
    dsimp only
    rw [if_neg hrest]

/-- Witness for C5 (amended): `Content-Length:  123` stores 123. -/
theorem parse_headers_content_length_witness :
    ∃ st, parse_headers ("Content-Length:".toList ++ " 123".toList ++ crlf) = some st ∧
      st.content_length = min (digitsVal (wsTrim " 123".toList)) ULONG_MAX := by
  obtain ⟨st, hst, hpart1, -, -⟩ :=
    parse_headers_content_length " 123".toList (by decide) (by decide)
  exact ⟨st, hst, hpart1 (by decide)⟩

/-! ## Claim C6: `parse_headers` bounds enforcement -/

/-- The name/value pair a header line contributes, if any: the line must
contain a colon and have a nonempty trimmed name; such lines are otherwise
skipped with a warning (not stored, not fatal). -/
def lineNameVal (l : Chars) : Option (Chars × Chars) :=
  match splitFirst [':'] l with
  | none => none
  | some r => if (wsTrim r.1).length = 0 then none else some (wsTrim r.1, wsTrim r.2)

/-- The effective headers of a section: one name/value pair per line with a
colon and a nonempty trimmed name. -/
def effHeaders (sec : Chars) : List (Chars × Chars) :=
  (headerLines sec).filterMap lineNameVal

theorem procLine_of_none (st : HeaderFields) (l : Chars) (h : lineNameVal l = none) :
    procLine st l = some st := by
  unfold lineNameVal at h
  unfold procLine
  cases hsp : splitFirst [':'] l with
  | none => rfl
  | some r =>
    rw [hsp] at h
    dsimp only at h ⊢
    by_cases hz : (wsTrim r.1).length = 0
    · rw [if_pos hz]
    · rw [if_neg hz] at h
      exact absurd h (by simp)

theorem procLine_of_some (st : HeaderFields) (l n val : Chars)
    (h : lineNameVal l = some (n, val)) :
    (MAX_HEADER_NAME_LENGTH ≤ n.length → procLine st l = none) ∧
    (n.length < MAX_HEADER_NAME_LENGTH → MAX_HEADERS ≤ st.headers.length →
      procLine st l = none) ∧
    (n.length < MAX_HEADER_NAME_LENGTH → st.headers.length < MAX_HEADERS →
      ∃ st', procLine st l = some st' ∧
        st'.headers = st.headers ++ [(n, val.take (MAX_HEADER_VALUE_LENGTH - 1))]) := by
  unfold lineNameVal at h
  rcases hsp : splitFirst [':'] l with _ | r
  · rw [hsp] at h; exact absurd h (by simp)
  · rw [hsp] at h
    dsimp only at h
    by_cases hz : (wsTrim r.1).length = 0
    · rw [if_pos hz] at h; exact absurd h (by simp)
    · rw [if_neg hz] at h
      injection h with h'
      injection h' with h1 h2
      subst h1
      subst h2
      refine ⟨?_, ?_, ?_⟩
      · intro hbig
        unfold procLine
        rw [hsp]
        dsimp only
        rw [if_neg hz, if_pos hbig]
      · intro hsmall hfull
        unfold procLine
        rw [hsp]
        dsimp only
        rw [if_neg hz, if_neg (by omega), if_pos hfull]
      · intro hsmall hroom
        unfold procLine
        rw [hsp]
        dsimp only
        rw [if_neg hz, if_neg (by omega), if_neg (by omega)]
        split
        · split
          · exact ⟨_, rfl, by split <;> rfl⟩
          · exact ⟨_, rfl, by split <;> rfl⟩
        · exact ⟨_, rfl, by split <;> rfl⟩

/-- Characterization of the header loop: it succeeds exactly when every
effective header name is below the name bound and, if any effective header
exists, the total stored count stays within `MAX_HEADERS`; on success the
stored headers are the effective ones with values truncated to
`MAX_HEADER_VALUE_LENGTH - 1` bytes. -/
theorem parseHeaderLoop_spec (ls : List Chars) :
    ∀ st : HeaderFields,
      ((parseHeaderLoop ls st).isSome = true ↔
        ((∀ nv ∈ ls.filterMap lineNameVal, nv.1.length < MAX_HEADER_NAME_LENGTH) ∧
          (1 ≤ (ls.filterMap lineNameVal).length →
            st.headers.length + (ls.filterMap lineNameVal).length ≤ MAX_HEADERS))) ∧
      (∀ st', parseHeaderLoop ls st = some st' →
        st'.headers = st.headers ++ (ls.filterMap lineNameVal).map
          (fun nv => (nv.1, nv.2.take (MAX_HEADER_VALUE_LENGTH - 1)))) := by
  induction ls with
  | nil =>
    intro st
    constructor
    · simp [parseHeaderLoop]
    · intro st' hst'
      unfold parseHeaderLoop at hst'
      injection hst' with hst'
      subst hst'
      simp
  | cons l rest ih =>
    intro st
    rcases hnv : lineNameVal l with _ | ⟨n, val⟩
    · have hproc := procLine_of_none st l hnv
      have hloop : parseHeaderLoop (l :: rest) st = parseHeaderLoop rest st := by
        rw [parseHeaderLoop, hproc]
      have hfm : (l :: rest).filterMap lineNameVal = rest.filterMap lineNameVal := by
        rw [List.filterMap_cons, hnv]
      rw [hloop, hfm]
      exact ih st
    · have hproc := procLine_of_some st l n val hnv
      have hfm : (l :: rest).filterMap lineNameVal =
          (n, val) :: rest.filterMap lineNameVal := by
        rw [List.filterMap_cons, hnv]
      rw [hfm]
      by_cases hbig : MAX_HEADER_NAME_LENGTH ≤ n.length
      · have hloop : parseHeaderLoop (l :: rest) st = none := by
          rw [parseHeaderLoop, hproc.1 hbig]
        rw [hloop]
        constructor
        · simp only [Option.isSome_none, Bool.false_eq_true, false_iff]
          rintro ⟨hnames, -⟩
          have := hnames (n, val) (by simp)
          dsimp only at this
          omega
        · intro st' hst'
          exact absurd hst' (by simp)
      · by_cases hfull : MAX_HEADERS ≤ st.headers.length
        · have hloop : parseHeaderLoop (l :: rest) st = none := by
            rw [parseHeaderLoop, hproc.2.1 (by omega) hfull]
          rw [hloop]
          constructor
          · simp only [Option.isSome_none, Bool.false_eq_true, false_iff]
            rintro ⟨-, hcount⟩
            have := hcount (by simp)
            simp only [List.length_cons] at this
            omega
          · intro st' hst'
            exact absurd hst' (by simp)
        · obtain ⟨st1, hst1, hhd⟩ := hproc.2.2 (by omega) (by omega)
          have hloop : parseHeaderLoop (l :: rest) st = parseHeaderLoop rest st1 := by
            rw [parseHeaderLoop, hst1]
          have hlen1 : st1.headers.length = st.headers.length + 1 := by
            rw [hhd, List.length_append, List.length_singleton]
          rw [hloop]
          obtain ⟨ih1, ih2⟩ := ih st1
          constructor
          · rw [ih1]
            constructor
            · rintro ⟨hnames, hcount⟩
              refine ⟨?_, ?_⟩
              · intro nv hmem
                rcases List.mem_cons.1 hmem with hmem | hmem
                · subst hmem; dsimp only; omega
                · exact hnames nv hmem
              · intro _
                simp only [List.length_cons]
                rcases Nat.eq_zero_or_pos (rest.filterMap lineNameVal).length with hz | hz
                · omega
                · have := hcount (by omega)
                  omega
            · rintro ⟨hnames, hcount⟩
              refine ⟨fun nv hmem => hnames nv (by simp [hmem]), ?_⟩
              intro hz
              have := hcount (by simp)
              simp only [List.length_cons] at this
              omega
          · intro st' hst'
            rw [ih2 st' hst', hhd]
            simp

/-- Claim C6: `parse_headers` fails the whole parse exactly when some
effective header line (one with a colon and a nonempty trimmed name) has a
name reaching `MAX_HEADER_NAME_LENGTH = 256` bytes or the effective header
count exceeds `MAX_HEADERS = 64`; on success the stored headers are exactly
the effective ones — lines with empty names are rejected (skipped, never
stored) without failing the parse — and each stored value is truncated to
`MAX_HEADER_VALUE_LENGTH - 1 = 8191` bytes rather than rejected. -/
theorem parse_headers_bounds (sec : Chars) :
    ((parse_headers sec).isSome = true ↔
      ((∀ nv ∈ effHeaders sec, nv.1.length < MAX_HEADER_NAME_LENGTH) ∧
        (effHeaders sec).length ≤ MAX_HEADERS)) ∧
    (∀ st, parse_headers sec = some st →
      st.headers = (effHeaders sec).map
        (fun nv => (nv.1, nv.2.take (MAX_HEADER_VALUE_LENGTH - 1)))) := by
  obtain ⟨h1, h2⟩ := parseHeaderLoop_spec (headerLines sec) initHeaderFields
  constructor
  · rw [show parse_headers sec = parseHeaderLoop (headerLines sec) initHeaderFields from rfl,
      h1]
    unfold effHeaders
    constructor
    · rintro ⟨hnames, hcount⟩
      refine ⟨hnames, ?_⟩
      rcases Nat.eq_zero_or_pos ((headerLines sec).filterMap lineNameVal).length with hz | hz
      · rw [hz]; decide
      · have := hcount (by omega)
        simpa [initHeaderFields] using this
    · rintro ⟨hnames, hcount⟩
      exact ⟨hnames, fun _ => by simpa [initHeaderFields] using hcount⟩
  · intro st hst
    have := h2 st hst
    simpa [initHeaderFields] using this

/-- Witness for C6 at a concrete section: the section
`"A: b\r\n: skipme\r\nnocolon\r\nB: longvalue\r\n"` parses successfully
and stores exactly the two effective headers. -/
theorem parse_headers_bounds_witness :
    (parse_headers "A: b\r\n: skipme\r\nnocolon\r\nB: c\r\n".toList).isSome = true ∧
    parse_headers "A: b\r\n: skipme\r\nnocolon\r\nB: c\r\n".toList =
      some { headers := [(['A'], ['b']), (['B'], ['c'])], content_length := 0,
             idempotency_key := [], has_idempotency_key := false } := by
  constructor
  · exact (parse_headers_bounds "A: b\r\n: skipme\r\nnocolon\r\nB: c\r\n".toList).1.mpr
      (by decide)
  · decide

/-! ## Claim C10: idempotency-key truncation -/

/-- Reduction of `parse_headers` on a single `X-Idempotency-Key` header
line: the parse succeeds, the header itself is stored with the value
truncated at the header-value bound, and the extracted key keeps only the
first `MAX_IDEMPOTENCY_KEY_LENGTH - 1 = 255` bytes. -/
theorem parse_headers_XIK_single (v : Chars) (hv : noCRLF v = true) :
    parse_headers ("X-Idempotency-Key:".toList ++ v ++ crlf) =
      some { headers := [("X-Idempotency-Key".toList,
               (wsTrim v).take (MAX_HEADER_VALUE_LENGTH - 1))],
             content_length := 0,
             idempotency_key := ((wsTrim v).take (MAX_HEADER_VALUE_LENGTH - 1)).take
               (MAX_IDEMPOTENCY_KEY_LENGTH - 1),
             has_idempotency_key := true } := by
  have hlines : headerLines (("X-Idempotency-Key:".toList ++ v) ++ crlf) =
      ["X-Idempotency-Key:".toList ++ v] := by
    refine headerLines_single _ (by simp) (fun c hc => ?_)
    rcases List.mem_append.1 hc with h | h
    · exact mem_noCRLF _ (by decide) c h
    · exact mem_noCRLF _ hv c h
  unfold parse_headers
  rw [hlines]
  unfold parseHeaderLoop
  have hcolon : "X-Idempotency-Key:".toList ++ v =
      "X-Idempotency-Key".toList ++ ':' :: v := by
    rw [show "X-Idempotency-Key:".toList = "X-Idempotency-Key".toList ++ [':'] from
      by decide]
    simp
  unfold procLine
  rw [hcolon, splitFirst_colon "X-Idempotency-Key".toList v
    (noColon_of_all _ (by decide))]
  dsimp only
  rw [show wsTrim "X-Idempotency-Key".toList = "X-Idempotency-Key".toList from by decide]
  rw [if_neg (by decide), if_neg (by decide)]
  rw [if_neg (show ¬MAX_HEADERS ≤ initHeaderFields.headers.length from by decide)]
  simp only [show caseEq "X-Idempotency-Key".toList "X-Idempotency-Key".toList = true from
      by decide,
    show caseEq "X-Idempotency-Key".toList "Content-Length".toList = false from by decide,
    Bool.false_eq_true, if_false, if_true]
  rfl

/-- Claim C10: a header section with an `X-Idempotency-Key` whose trimmed
value is at least `MAX_IDEMPOTENCY_KEY_LENGTH = 256` bytes still parses
successfully and marks the request as having an idempotency key, but only
the first 255 bytes of the value are stored — so two requests with distinct
keys sharing the same 255-byte prefix receive the same stored key. -/
theorem idempotency_key_truncation (v1 v2 : Chars)
    (hv1 : noCRLF v1 = true) (hv2 : noCRLF v2 = true)
    (hlen1 : MAX_IDEMPOTENCY_KEY_LENGTH ≤ (wsTrim v1).length)
    (hlen2 : MAX_IDEMPOTENCY_KEY_LENGTH ≤ (wsTrim v2).length)
    (hne : wsTrim v1 ≠ wsTrim v2)
    (hpre : (wsTrim v1).take (MAX_IDEMPOTENCY_KEY_LENGTH - 1) =
      (wsTrim v2).take (MAX_IDEMPOTENCY_KEY_LENGTH - 1)) :
    ∃ st1 st2,
      parse_headers ("X-Idempotency-Key:".toList ++ v1 ++ crlf) = some st1 ∧
      parse_headers ("X-Idempotency-Key:".toList ++ v2 ++ crlf) = some st2 ∧
      st1.has_idempotency_key = true ∧ st2.has_idempotency_key = true ∧
      st1.idempotency_key = (wsTrim v1).take (MAX_IDEMPOTENCY_KEY_LENGTH - 1) ∧
      st2.idempotency_key = (wsTrim v2).take (MAX_IDEMPOTENCY_KEY_LENGTH - 1) ∧
      st1.idempotency_key = st2.idempotency_key := by
  have hmin : min (MAX_IDEMPOTENCY_KEY_LENGTH - 1) (MAX_HEADER_VALUE_LENGTH - 1) =
      MAX_IDEMPOTENCY_KEY_LENGTH - 1 := by decide
  have hkey1 : ((wsTrim v1).take (MAX_HEADER_VALUE_LENGTH - 1)).take
      (MAX_IDEMPOTENCY_KEY_LENGTH - 1) = (wsTrim v1).take (MAX_IDEMPOTENCY_KEY_LENGTH - 1) := by
    rw [List.take_take, hmin]
  have hkey2 : ((wsTrim v2).take (MAX_HEADER_VALUE_LENGTH - 1)).take
      (MAX_IDEMPOTENCY_KEY_LENGTH - 1) = (wsTrim v2).take (MAX_IDEMPOTENCY_KEY_LENGTH - 1) := by
    rw [List.take_take, hmin]
  refine ⟨_, _, parse_headers_XIK_single v1 hv1, parse_headers_XIK_single v2 hv2,
    rfl, rfl, hkey1, hkey2, ?_⟩
  dsimp only
  rw [hkey1, hkey2, hpre]

/-- Witness for C10: a 256-byte key of `k`s and a distinct key sharing its
255-byte prefix are both accepted and stored as the same 255-byte key. -/
theorem idempotency_key_truncation_witness :
    ∃ st1 st2,
      parse_headers ("X-Idempotency-Key:".toList ++ List.replicate 256 'k' ++ crlf) =
        some st1 ∧
      parse_headers ("X-Idempotency-Key:".toList ++
          (List.replicate 255 'k' ++ ['x']) ++ crlf) = some st2 ∧
      st1.has_idempotency_key = true ∧ st2.has_idempotency_key = true ∧
      st1.idempotency_key =
        (wsTrim (List.replicate 256 'k')).take (MAX_IDEMPOTENCY_KEY_LENGTH - 1) ∧
      st2.idempotency_key =
        (wsTrim (List.replicate 255 'k' ++ ['x'])).take (MAX_IDEMPOTENCY_KEY_LENGTH - 1) ∧
      st1.idempotency_key = st2.idempotency_key :=
  idempotency_key_truncation (List.replicate 256 'k') (List.replicate 255 'k' ++ ['x'])
    (by decide) (by decide) (by decide) (by decide) (by decide) (by decide)

/-! ### Decimal printing (`snprintf %d` / `%zu`) -/

def digitChar (d : Nat) : Char := Char.ofNat (48 + d)

/-- Fuel-based decimal printer worker (the fuel only bounds recursion and is
always sufficient at `n + 1`). -/
def natDigitsAux : Nat → Nat → Chars → Chars
  | 0, _, acc => acc
  | fuel + 1, n, acc =>
    if n / 10 = 0 then digitChar (n % 10) :: acc
    else natDigitsAux fuel (n / 10) (digitChar (n % 10) :: acc)

/-- Decimal representation of a natural number, as `snprintf("%zu")`
prints it. -/
def natChars (n : Nat) : Chars := natDigitsAux (n + 1) n []

/-- Decimal representation of a C `int`, as `snprintf("%d")` prints it. -/
def intChars (i : Int) : Chars :=
  if i < 0 then '-' :: natChars (-i).toNat else natChars i.toNat

theorem digitChar_toNat (d : Nat) (h : d < 10) : (digitChar d).toNat = 48 + d := by
  interval_cases d <;> decide

theorem isDigitC_digitChar (d : Nat) (h : d < 10) : isDigitC (digitChar d) = true := by
  interval_cases d <;> decide

theorem natDigitsAux_spec (fuel : Nat) : ∀ n acc, n < fuel →
    ∃ ds, natDigitsAux fuel n acc = ds ++ acc ∧ ds ≠ [] ∧
      (∀ c ∈ ds, isDigitC c = true) ∧
      (∀ a : Nat, List.foldl (fun a c => a * 10 + (c.toNat - 48)) a (ds ++ acc) =
        List.foldl (fun a c => a * 10 + (c.toNat - 48)) (a * 10 ^ ds.length + n) acc) ∧
      (∀ k, 1 ≤ k → n < 10 ^ k → ds.length ≤ k) := by
  induction fuel with
  | zero => intro n acc h; omega
  | succ fuel ih =>
    intro n acc h
    by_cases hz : n / 10 = 0
    · refine ⟨[digitChar (n % 10)], ?_, by simp, ?_, ?_, ?_⟩
      · rw [natDigitsAux, if_pos hz]
        rfl
      · intro c hc
        rcases List.mem_singleton.1 hc with rfl
        exact isDigitC_digitChar _ (Nat.mod_lt _ (by omega))
      · intro a
        simp only [List.cons_append, List.nil_append, List.foldl_cons]
        rw [digitChar_toNat _ (Nat.mod_lt _ (by omega))]
        have harith : a * 10 + (48 + n % 10 - 48) =
            a * 10 ^ [digitChar (n % 10)].length + n := by
          simp only [List.length_singleton, pow_one]
          omega
        rw [harith]
      · intro k hk _
        simpa using hk
    · have hrec : n / 10 < fuel := by omega
      obtain ⟨ds', heq, hne, hdig, hval, hlen⟩ :=
        ih (n / 10) (digitChar (n % 10) :: acc) hrec
      refine ⟨ds' ++ [digitChar (n % 10)], ?_, by simp [hne], ?_, ?_, ?_⟩
      · rw [natDigitsAux, if_neg hz, heq]
        simp
      · intro c hc
        rcases List.mem_append.1 hc with hc | hc
        · exact hdig c hc
        · rcases List.mem_singleton.1 hc with rfl
          exact isDigitC_digitChar _ (Nat.mod_lt _ (by omega))
      · intro a
        have step1 : (ds' ++ [digitChar (n % 10)]) ++ acc =
            ds' ++ (digitChar (n % 10) :: acc) := by simp
        rw [step1, hval a]
        simp only [List.foldl_cons]
        rw [digitChar_toNat _ (Nat.mod_lt _ (by omega))]
        have harith : (a * 10 ^ ds'.length + n / 10) * 10 + (48 + n % 10 - 48) =
            a * 10 ^ (ds' ++ [digitChar (n % 10)]).length + n := by
          have hmod : n / 10 * 10 + n % 10 = n := by omega
          simp only [List.length_append, List.length_singleton]
          ring_nf
          omega
        rw [harith]
      · intro k hk hlt
        rcases Nat.lt_or_ge k 2 with hk2 | hk2
        · exfalso
          have : k = 1 := by omega
          subst this
          simp at hlt
          omega
        · have hd : n / 10 < 10 ^ (k - 1) := by
            have h10 : 10 ^ (k - 1) * 10 = 10 ^ k := by
              rw [← pow_succ]
              congr 1
              omega
            omega
          have := hlen (k - 1) (by omega) hd
          simp only [List.length_append, List.length_singleton]
          omega

/-- `natChars` prints a nonempty all-digit string whose value reads back to
`n` and whose length is at most `k` digits whenever `n < 10^k`. -/
theorem natChars_spec (n : Nat) :
    natChars n ≠ [] ∧ (∀ c ∈ natChars n, isDigitC c = true) ∧
      digitsVal (natChars n) = n ∧
      (∀ k, 1 ≤ k → n < 10 ^ k → (natChars n).length ≤ k) := by
  obtain ⟨ds, heq, hne, hdig, hval, hlen⟩ := natDigitsAux_spec (n + 1) n [] (by omega)
  unfold natChars
  rw [heq]
  simp only [List.append_nil]
  refine ⟨hne, hdig, ?_, hlen⟩
  have := hval 0
  simp only [List.append_nil, List.foldl_nil] at this
  unfold digitsVal
  omega

/-! ### HTTP responses (`http_response.h` and the response builder) -/

/-- `status_code_to_message` from the response builder. -/
def status_code_to_message (code : Int) : Chars :=
  if code = 200 then "OK".toList
  else if code = 400 then "Bad Request".toList
  else if code = 404 then "Not Found".toList
  else if code = 409 then "Conflict".toList
  else if code = 413 then "Payload Too Large".toList
  else if code = 422 then "Unprocessable Entity".toList
  else if code = 500 then "Internal Server Error".toList
  else if code = 501 then "Not Implemented".toList
  else "Unknown".toList

/-- `http_response_t`: status code and message, dynamic header array, body. -/
structure Response where
  status_code : Int
  status_message : Chars
  headers : List (Chars × Chars)
  body : Chars
  deriving DecidableEq, Repr

/-- `http_response_init`. -/
def http_response_init (code : Int) : Response :=
  ⟨code, status_code_to_message code, [], []⟩

/-- `http_response_add_header` (appends, preserving insertion order). -/
def http_response_add_header (r : Response) (n v : Chars) : Response :=
  { r with headers := r.headers ++ [(n, v)] }

/-- `http_response_set_body`. -/
def http_response_set_body (r : Response) (b : Chars) : Response :=
  { r with body := b }

/-- The fixed `Server` header emitted by `http_response_serialize`. -/
def serverHeader : Chars := "Server: C-HTTP-Payment-Server/1.0\r\n".toList

/-- The status line `HTTP/1.1 <code> <message>\r\n`. -/
def statusLine (r : Response) : Chars :=
  "HTTP/1.1 ".toList ++ intChars r.status_code ++ [' '] ++ r.status_message ++ crlf

/-- A serialized header line `name: value\r\n`. -/
def headerLine (nv : Chars × Chars) : Chars := nv.1 ++ ": ".toList ++ nv.2 ++ crlf

/-- One `snprintf` into the fixed serialization buffer: fails (as the C code
does) when the piece does not fit strictly below the remaining budget. -/
def appendPiece (est : Nat) (acc : Option Chars) (piece : Chars) : Option Chars :=
  match acc with
  | none => none
  | some buf => if est ≤ buf.length + piece.length then none else some (buf ++ piece)

/-- The pieces `http_response_serialize` writes before the body, in the
order the C code writes them: status line, `Server`, `Date`,
`Content-Length`, the caller headers in insertion order, and the blank
line. -/
def serializePieces (r : Response) (date : Chars) : List Chars :=
  [statusLine r, serverHeader, "Date: ".toList ++ date ++ crlf,
    "Content-Length: ".toList ++ natChars r.body.length ++ crlf] ++
  r.headers.map headerLine ++ [crlf]

/-- `http_response_serialize`: writes the pieces of `serializePieces` one
`snprintf` at a time into a buffer of `1024 + body_length` bytes (any
overflow aborts with `NULL`), then copies the body verbatim.  The `Date`
value is the formatted current time, passed here as a parameter. -/
def http_response_serialize (r : Response) (date : Chars) : Option Chars :=
  let est := 1024 + r.body.length
  match (serializePieces r date).foldl (appendPiece est) (some []) with
  | none => none
  | some buf =>
    if r.body.length = 0 then some buf
    else if est < buf.length + r.body.length then none
    else some (buf ++ r.body)

theorem appendPiece_some (est : Nat) (b : Option Chars) (p out : Chars)
    (h : appendPiece est b p = some out) :
    ∃ buf, b = some buf ∧ out = buf ++ p := by
  cases b with
  | none => exact absurd h (by simp [appendPiece])
  | some buf =>
    unfold appendPiece at h
    dsimp only at h
    by_cases hfit : est ≤ buf.length + p.length
    · rw [if_pos hfit] at h
      exact absurd h (by simp)
    · rw [if_neg hfit] at h
      injection h with h
      exact ⟨buf, rfl, h.symm⟩

theorem foldl_appendPiece_some (est : Nat) (ps : List Chars) :
    ∀ b out, ps.foldl (appendPiece est) b = some out →
      ∃ buf, b = some buf ∧ out = buf ++ ps.flatten := by
  induction ps with
  | nil =>
    intro b out h
    exact ⟨out, h, by simp⟩
  | cons p rest ih =>
    intro b out h
    rw [List.foldl_cons] at h
    obtain ⟨buf1, hb1, hout⟩ := ih _ out h
    obtain ⟨buf0, hb0, hbuf1⟩ := appendPiece_some est b p buf1 hb1
    exact ⟨buf0, hb0, by rw [hout, hbuf1]; simp⟩

/-- A successful serialization is exactly the flattened piece list followed
by the body. -/
theorem serialize_eq_flatten (r : Response) (date out : Chars)
    (h : http_response_serialize r date = some out) :
    out = (serializePieces r date).flatten ++ r.body := by
  unfold http_response_serialize at h
  dsimp only at h
  rcases hfold : (serializePieces r date).foldl (appendPiece (1024 + r.body.length))
      (some []) with _ | buf
  · rw [hfold] at h
    exact absurd h (by simp)
  · rw [hfold] at h
    dsimp only at h
    obtain ⟨buf0, hb0, hbuf⟩ := foldl_appendPiece_some _ _ _ _ hfold
    injection hb0 with hb0
    subst hb0
    by_cases hz : r.body.length = 0
    · rw [if_pos hz] at h
      injection h with h
      have hbody : r.body = [] := List.length_eq_zero.1 hz
      rw [← h, hbuf, hbody]
      simp
    · rw [if_neg hz] at h
      by_cases hov : 1024 + r.body.length < buf.length + r.body.length
      · rw [if_pos hov] at h
        exact absurd h (by simp)
      · rw [if_neg hov] at h
        injection h with h
        rw [← h, hbuf]
        simp

theorem serializePieces_flatten (r : Response) (date : Chars) :
    (serializePieces r date).flatten =
      statusLine r ++ serverHeader ++ ("Date: ".toList ++ date ++ crlf) ++
        ("Content-Length: ".toList ++ natChars r.body.length ++ crlf) ++
        (r.headers.map headerLine).flatten ++ crlf := by
  unfold serializePieces
  simp [List.flatten_append]

/-- Claim C7: whenever `http_response_serialize` succeeds, the output is, in
order: the status line, the `Server` header, the `Date` header, a
`Content-Length` header whose decimal value equals the body length exactly,
all caller-supplied headers in insertion order, a blank line, and the body
bytes verbatim. -/
theorem http_response_serialize_layout (r : Response) (date out : Chars)
    (h : http_response_serialize r date = some out) :
    out = statusLine r ++ serverHeader ++ ("Date: ".toList ++ date ++ crlf) ++
        ("Content-Length: ".toList ++ natChars r.body.length ++ crlf) ++
        (r.headers.map headerLine).flatten ++ crlf ++ r.body ∧
      digitsVal (natChars r.body.length) = r.body.length := by
  refine ⟨?_, (natChars_spec r.body.length).2.2.1⟩
  rw [serialize_eq_flatten r date out h, serializePieces_flatten]

/-- A small response used to instantiate the serializer theorems. -/
def sampleResponse : Response :=
  ⟨200, "OK".toList, [("Content-Type".toList, "application/json".toList)], "hi".toList⟩

/-- Witness for C7: the layout theorem applied to `sampleResponse` with a
fixed date string. -/
theorem http_response_serialize_layout_witness :
    ∃ out, http_response_serialize sampleResponse "D".toList = some out ∧
      (out = statusLine sampleResponse ++ serverHeader ++
          ("Date: ".toList ++ "D".toList ++ crlf) ++
          ("Content-Length: ".toList ++ natChars sampleResponse.body.length ++ crlf) ++
          (sampleResponse.headers.map headerLine).flatten ++ crlf ++ sampleResponse.body ∧
        digitsVal (natChars sampleResponse.body.length) = sampleResponse.body.length) := by
  have h : (http_response_serialize sampleResponse "D".toList).isSome = true := by decide
  obtain ⟨out, hout⟩ := Option.isSome_iff_exists.1 h
  exact ⟨out, hout, http_response_serialize_layout sampleResponse "D".toList out hout⟩

/-! ### The connection pipeline (`connection.c`, `connection_handle`) -/

/-- `http_response_create_error`: an error response with the fixed JSON body
`{"error":<msg>,"status":<code>,"message":<reason>}` and a
`Content-Type: application/json` header. -/
def http_response_create_error (code : Int) (msg : Chars) : Response :=
  { status_code := code
    status_message := status_code_to_message code
    headers := [("Content-Type".toList, "application/json".toList)]
    body := "\x7b\"error\":\"".toList ++ msg ++ "\",\"status\":".toList ++ intChars code ++
      ",\"message\":\"".toList ++ status_code_to_message code ++ "\"\x7d".toList }

/-- Modelled from the spec: `parse_request_body` is called by
`connection_handle` but its definition is not in the repository sources;
per §4.4 of the spec it reads exactly `Content-Length` further body bytes
(the already-buffered bytes first), failing if the connection cannot supply
them. -/
def parse_request_body (n : Nat) (avail : Chars) : Option Chars :=
  if n ≤ avail.length then some (avail.take n) else none

/-- The fully parsed request assembled by `connection_handle`. -/
structure Request where
  line : RequestLine
  fields : HeaderFields
  body : Chars
  deriving DecidableEq, Repr

/-- Steps 2-5 of `connection_handle`: find the blank line, split off and
parse the request line, parse the headers, and read the body when
`Content-Length > 0` (checking the 1 MB cap first).  Each failure produces
the exact error response the C code builds.  `input` is the first `recv`
buffer; `rest` is what further reads can supply. -/
def connection_parse (input rest : Chars) : Except Response Request :=
  match splitFirst crlf2 input with
  | none => .error (http_response_create_error 400 "Malformed HTTP request".toList)
  | some hp =>
    match splitFirst crlf hp.1 with
    | none => .error (http_response_create_error 400 "Malformed request line".toList)
    | some rl =>
      match parse_request_line rl.1 with
      | none => .error (http_response_create_error 400 "Invalid request line".toList)
      | some pl =>
        match parse_headers rl.2 with
        | none => .error (http_response_create_error 400 "Invalid headers".toList)
        | some hf =>
          if 0 < hf.content_length then
            if MAX_REQUEST_BODY_SIZE < hf.content_length then
              .error (http_response_create_error 413 "Request body exceeds 1MB limit".toList)
            else
              match parse_request_body hf.content_length (hp.2 ++ rest) with
              | none =>
                .error (http_response_create_error 400 "Failed to read request body".toList)
              | some body => .ok ⟨pl, hf, body⟩
          else .ok ⟨pl, hf, []⟩

/-- The JSON success body built in step 7 of `connection_handle`. -/
def successBody (req : Request) : Chars :=
  if req.line.method = .post ∧ req.fields.has_idempotency_key = true then
    "\x7b\"status\":\"success\",\"message\":\"Payment processed\",\"idempotency_key\":\"".toList
      ++ req.fields.idempotency_key ++ "\",\"body_size\":".toList
      ++ natChars req.body.length ++ "\x7d".toList
  else
    "\x7b\"status\":\"success\",\"message\":\"Request received\",\"method\":\"".toList
      ++ http_method_to_string req.line.method ++ "\",\"uri\":\"".toList
      ++ req.line.uri ++ "\"\x7d".toList

/-- `connection_handle` after the socket read: parse, reject POST without an
idempotency key with 422, otherwise build the 200 success response (or a 500
when the 1024-byte body buffer would overflow).  The boolean records whether
step 7 — the stand-in for the external handler — ran. -/
def connection_handle (input rest : Chars) : Response × Bool :=
  match connection_parse input rest with
  | .error e => (e, false)
  | .ok req =>
    if req.line.method = .post ∧ req.fields.has_idempotency_key = false then
      (http_response_create_error 422
        "POST requests require X-Idempotency-Key header".toList, false)
    else
      let b := successBody req
      if 1024 ≤ b.length then
        (http_response_create_error 500 "Failed to format response".toList, true)
      else
        ({ status_code := 200, status_message := "OK".toList,
           headers := [("Content-Type".toList, "application/json".toList)],
           body := b }, true)

/-! ## Claim C2: POST without idempotency key gets 422, handler not run -/

/-- Claim C2: whenever `connection_handle` fully parses a request whose
method is POST and which carries no `X-Idempotency-Key`, it responds with
the 422 error response (a JSON error body with `Content-Type:
application/json`) and step 7 — the handler stand-in — never runs. -/
theorem post_without_key_422 (input rest : Chars) (req : Request)
    (hparse : connection_parse input rest = .ok req)
    (hpost : req.line.method = .post)
    (hnokey : req.fields.has_idempotency_key = false) :
    connection_handle input rest =
      (http_response_create_error 422
        "POST requests require X-Idempotency-Key header".toList, false) ∧
    (connection_handle input rest).1.status_code = 422 ∧
    (connection_handle input rest).2 = false := by
  have h : connection_handle input rest =
      (http_response_create_error 422
        "POST requests require X-Idempotency-Key header".toList, false) := by
    unfold connection_handle
    rw [hparse]
    dsimp only
    rw [if_pos ⟨hpost, hnokey⟩]
  exact ⟨h, by rw [h]; rfl, by rw [h]⟩

/-- Witness for C2: `POST /payment HTTP/1.1` with a `Host` header and no
idempotency key is parsed and answered with 422. -/
theorem post_without_key_422_witness :
    connection_handle "POST /payment HTTP/1.1\r\nHost: x\r\n\r\n".toList [] =
      (http_response_create_error 422
        "POST requests require X-Idempotency-Key header".toList, false) ∧
    (connection_handle "POST /payment HTTP/1.1\r\nHost: x\r\n\r\n".toList []).1.status_code =
      422 ∧
    (connection_handle "POST /payment HTTP/1.1\r\nHost: x\r\n\r\n".toList []).2 = false :=
  post_without_key_422 "POST /payment HTTP/1.1\r\nHost: x\r\n\r\n".toList []
    ⟨⟨.post, "/payment".toList, .v11⟩,
      ⟨[("Host".toList, ['x'])], 0, [], false⟩, []⟩
    rfl rfl rfl

/-! ## Claim C3: unrecognized methods do NOT get 501 -/

/-- Claim C3, counterexample: the request `BREW / HTTP/1.1` carries a method
token that is none of the recognized methods, yet the server responds 200,
not 501 — `parse_request_line` stores `UNKNOWN` with only a warning and
`connection_handle` has no 501 path at all. -/
theorem unknown_method_200_counterexample :
    http_string_to_method "BREW".toList = .unknown ∧
    (connection_handle "BREW / HTTP/1.1\r\nHost: x\r\n\r\n".toList []).1.status_code = 200 ∧
    (connection_handle "BREW / HTTP/1.1\r\nHost: x\r\n\r\n".toList []).1.status_code ≠ 501 := by
  refine ⟨by decide, by decide, by decide⟩

theorem connection_parse_error_status (input rest : Chars) (e : Response)
    (h : connection_parse input rest = .error e) :
    e.status_code = 400 ∨ e.status_code = 413 := by
  unfold connection_parse at h
  rcases h2 : splitFirst crlf2 input with _ | hp
  · rw [h2] at h
    injection h with h
    subst h
    exact Or.inl rfl
  · rw [h2] at h
    dsimp only at h
    rcases h3 : splitFirst crlf hp.1 with _ | rl
    · rw [h3] at h
      injection h with h
      subst h
      exact Or.inl rfl
    · rw [h3] at h
      dsimp only at h
      rcases h4 : parse_request_line rl.1 with _ | pl
      · rw [h4] at h
        injection h with h
        subst h
        exact Or.inl rfl
      · rw [h4] at h
        dsimp only at h
        rcases h5 : parse_headers rl.2 with _ | hf
        · rw [h5] at h
          injection h with h
          subst h
          exact Or.inl rfl
        · rw [h5] at h
          dsimp only at h
          by_cases h6 : 0 < hf.content_length
          · rw [if_pos h6] at h
            by_cases h7 : MAX_REQUEST_BODY_SIZE < hf.content_length
            · rw [if_pos h7] at h
              injection h with h
              subst h
              exact Or.inr rfl
            · rw [if_neg h7] at h
              rcases h8 : parse_request_body hf.content_length (hp.2 ++ rest) with _ | body
              · rw [h8] at h
                injection h with h
                subst h
                exact Or.inl rfl
              · rw [h8] at h
                exact absurd h (by simp)
          · rw [if_neg h6] at h
            exact absurd h (by simp)

/-- Claim C3 (amended): the server never responds 501 on any input — a
request line with an unrecognized method token parses as method `UNKNOWN`
with only a warning and flows through the normal pipeline (responding 200
when the rest of the request is well-formed); every response status is one
of 200, 400, 413, 422 and 500. -/
theorem connection_handle_never_501 (input rest : Chars) :
    (connection_handle input rest).1.status_code = 200 ∨
    (connection_handle input rest).1.status_code = 400 ∨
    (connection_handle input rest).1.status_code = 413 ∨
    (connection_handle input rest).1.status_code = 422 ∨
    (connection_handle input rest).1.status_code = 500 := by
  unfold connection_handle
  rcases hp : connection_parse input rest with e | req
  · rcases connection_parse_error_status input rest e hp with h | h
    · exact Or.inr (Or.inl h)
    · exact Or.inr (Or.inr (Or.inl h))
  · dsimp only
    by_cases h1 : req.line.method = .post ∧ req.fields.has_idempotency_key = false
    · rw [if_pos h1]
      exact Or.inr (Or.inr (Or.inr (Or.inl rfl)))
    · rw [if_neg h1]
      by_cases h2 : 1024 ≤ (successBody req).length
      · rw [if_pos h2]
        exact Or.inr (Or.inr (Or.inr (Or.inr rfl)))
      · rw [if_neg h2]
        exact Or.inl rfl

/-! ## Claim C8: task queue FIFO and shutdown drain (`task_queue.c`) -/

/-- One queue operation, as issued by the listener and the workers. -/
inductive QueueOp where
  | enqueue (fd : Int)
  | dequeue
  | shutdown
  deriving DecidableEq, Repr

/-- The mutex-protected queue state: the fd list (head = front) and the
shutdown flag. -/
structure QueueState where
  tasks : List Int
  shutdown : Bool
  deriving DecidableEq, Repr

/-- The observable outcome of one operation. -/
inductive QueueEvent where
  | enqOk (fd : Int)
  | enqErr
  | enqBlocked
  | deq (fd : Int)
  | deqShutdown
  | deqBlocked
  | sdDone
  deriving DecidableEq, Repr

/-- One operation of `task_queue.c` under the queue mutex.  `maxSize = 0`
means unbounded.  `enqueue` fails after shutdown and (sequentially viewed)
blocks while a bounded queue is full; `dequeue` blocks while empty and not
shut down, reports `Shutdown` when empty and shut down, and otherwise pops
the head (FIFO) regardless of the shutdown flag; `shutdown` sets the flag
and broadcasts. -/
def task_queue_step (maxSize : Nat) (st : QueueState) : QueueOp → QueueState × QueueEvent
  | .enqueue fd =>
    if st.shutdown then (st, .enqErr)
    else if 0 < maxSize ∧ maxSize ≤ st.tasks.length then (st, .enqBlocked)
    else ({ st with tasks := st.tasks ++ [fd] }, .enqOk fd)
  | .dequeue =>
    match st.tasks with
    | [] => if st.shutdown then (st, .deqShutdown) else (st, .deqBlocked)
    | fd :: rest => ({ st with tasks := rest }, .deq fd)
  | .shutdown => ({ st with shutdown := true }, .sdDone)

/-- Run a whole operation sequence, collecting the event trace. -/
def task_queue_run (maxSize : Nat) : QueueState → List QueueOp → QueueState × List QueueEvent
  | st, [] => (st, [])
  | st, op :: ops =>
    let r := task_queue_step maxSize st op
    let rr := task_queue_run maxSize r.1 ops
    (rr.1, r.2 :: rr.2)

/-- The fds accepted by `enqueue`, in order. -/
def enqueuedFDs : List QueueEvent → List Int
  | [] => []
  | .enqOk fd :: t => fd :: enqueuedFDs t
  | _ :: t => enqueuedFDs t

/-- The fds delivered by `dequeue`, in order. -/
def dequeuedFDs : List QueueEvent → List Int
  | [] => []
  | .deq fd :: t => fd :: dequeuedFDs t
  | _ :: t => dequeuedFDs t

theorem task_queue_step_enq_err (maxSize : Nat) (st : QueueState) (fd : Int)
    (h : st.shutdown = true) :
    task_queue_step maxSize st (.enqueue fd) = (st, .enqErr) := by
  unfold task_queue_step
  dsimp only
  rw [if_pos h]

theorem task_queue_step_enq_full (maxSize : Nat) (st : QueueState) (fd : Int)
    (h : st.shutdown = false) (hfull : 0 < maxSize ∧ maxSize ≤ st.tasks.length) :
    task_queue_step maxSize st (.enqueue fd) = (st, .enqBlocked) := by
  unfold task_queue_step
  dsimp only
  rw [if_neg (by simp [h]), if_pos hfull]

theorem task_queue_step_enq_ok (maxSize : Nat) (st : QueueState) (fd : Int)
    (h : st.shutdown = false) (hfull : ¬(0 < maxSize ∧ maxSize ≤ st.tasks.length)) :
    task_queue_step maxSize st (.enqueue fd) =
      ({ st with tasks := st.tasks ++ [fd] }, .enqOk fd) := by
  unfold task_queue_step
  dsimp only
  rw [if_neg (by simp [h]), if_neg hfull]

theorem task_queue_step_deq_empty (maxSize : Nat) (st : QueueState)
    (h : st.tasks = []) :
    task_queue_step maxSize st .dequeue =
      (st, if st.shutdown then .deqShutdown else .deqBlocked) := by
  unfold task_queue_step
  dsimp only
  rw [h]
  dsimp only
  by_cases hsd : st.shutdown = true
  · rw [if_pos hsd, if_pos hsd]
  · rw [if_neg hsd, if_neg hsd]

theorem task_queue_step_deq_pop (maxSize : Nat) (st : QueueState) (fd : Int)
    (rest : List Int) (h : st.tasks = fd :: rest) :
    task_queue_step maxSize st .dequeue = ({ st with tasks := rest }, .deq fd) := by
  unfold task_queue_step
  dsimp only
  rw [h]

theorem task_queue_step_sd (maxSize : Nat) (st : QueueState) :
    task_queue_step maxSize st .shutdown = ({ st with shutdown := true }, .sdDone) := rfl

theorem task_queue_run_cons (maxSize : Nat) (st : QueueState) (op : QueueOp)
    (ops : List QueueOp) :
    task_queue_run maxSize st (op :: ops) =
      ((task_queue_run maxSize (task_queue_step maxSize st op).1 ops).1,
        (task_queue_step maxSize st op).2 ::
          (task_queue_run maxSize (task_queue_step maxSize st op).1 ops).2) := rfl

theorem task_queue_run_inv (maxSize : Nat) (ops : List QueueOp) :
    ∀ st : QueueState,
      dequeuedFDs (task_queue_run maxSize st ops).2 ++
          (task_queue_run maxSize st ops).1.tasks =
        st.tasks ++ enqueuedFDs (task_queue_run maxSize st ops).2 := by
  induction ops with
  | nil => intro st; simp [task_queue_run, dequeuedFDs, enqueuedFDs]
  | cons op ops ih =>
    intro st
    rw [task_queue_run_cons]
    rcases op with fd | _ | _
    · by_cases hsd : st.shutdown
      · rw [task_queue_step_enq_err maxSize st fd hsd]
        simpa [dequeuedFDs, enqueuedFDs] using ih st
      · by_cases hfull : 0 < maxSize ∧ maxSize ≤ st.tasks.length
        · rw [task_queue_step_enq_full maxSize st fd (by simpa using hsd) hfull]
          simpa [dequeuedFDs, enqueuedFDs] using ih st
        · rw [task_queue_step_enq_ok maxSize st fd (by simpa using hsd) hfull]
          have := ih { st with tasks := st.tasks ++ [fd] }
          simp only [dequeuedFDs, enqueuedFDs]
          rw [this]
          simp
    · rcases htasks : st.tasks with _ | ⟨fd, rest⟩
      · rw [task_queue_step_deq_empty maxSize st htasks]
        rcases hsd : st.shutdown
        · simpa [dequeuedFDs, enqueuedFDs, htasks] using ih st
        · simpa [dequeuedFDs, enqueuedFDs, htasks] using ih st
      · rw [task_queue_step_deq_pop maxSize st fd rest htasks]
        have := ih { st with tasks := rest }
        simp only [dequeuedFDs, enqueuedFDs]
        rw [List.cons_append, this]
        rfl
    · rw [task_queue_step_sd]
      simpa [dequeuedFDs, enqueuedFDs] using ih { st with shutdown := true }

/-- Claim C8: for every operation sequence from the initial queue, the fds
delivered by `dequeue`, followed by the tasks still queued at the end, are
exactly the fds accepted by `enqueue`, in order — so dequeues happen in
strict FIFO enqueue order, no task is delivered twice, and no queued task is
lost.  Moreover `dequeue` reports `Shutdown` exactly when the queue is both
empty and shut down (so remaining tasks are drained, in order, first), and
while a task is queued `dequeue` pops the head even after shutdown. -/
theorem task_queue_fifo (maxSize : Nat) (ops : List QueueOp) :
    (dequeuedFDs (task_queue_run maxSize ⟨[], false⟩ ops).2 ++
        (task_queue_run maxSize ⟨[], false⟩ ops).1.tasks =
      enqueuedFDs (task_queue_run maxSize ⟨[], false⟩ ops).2) ∧
    (∀ st : QueueState, (task_queue_step maxSize st .dequeue).2 = .deqShutdown ↔
      (st.shutdown = true ∧ st.tasks = [])) ∧
    (∀ (st : QueueState) (fd : Int) (rest : List Int), st.tasks = fd :: rest →
      task_queue_step maxSize st .dequeue = ({ st with tasks := rest }, .deq fd)) := by
  refine ⟨?_, ?_, ?_⟩
  · have := task_queue_run_inv maxSize ops ⟨[], false⟩
    simpa using this
  · intro st
    rcases htasks : st.tasks with _ | ⟨fd, rest⟩
    · rw [task_queue_step_deq_empty maxSize st htasks]
      rcases hsd : st.shutdown
      · simp [htasks]
      · simp [htasks]
    · rw [task_queue_step_deq_pop maxSize st fd rest htasks]
      constructor
      · intro h; exact absurd h (by simp)
      · rintro ⟨-, hnil⟩
        exact absurd hnil (by simp [htasks])
  · intro st fd rest htasks
    exact task_queue_step_deq_pop maxSize st fd rest htasks

/-- Witness for C8: two enqueues, a shutdown, then three dequeues drain the
queue in order and only then report `Shutdown`. -/
theorem task_queue_fifo_witness :
    (dequeuedFDs (task_queue_run 0 ⟨[], false⟩
          [QueueOp.enqueue 7, QueueOp.enqueue 8, QueueOp.shutdown,
            QueueOp.dequeue, QueueOp.dequeue, QueueOp.dequeue]).2 ++
        (task_queue_run 0 ⟨[], false⟩
          [QueueOp.enqueue 7, QueueOp.enqueue 8, QueueOp.shutdown,
            QueueOp.dequeue, QueueOp.dequeue, QueueOp.dequeue]).1.tasks =
      enqueuedFDs (task_queue_run 0 ⟨[], false⟩
          [QueueOp.enqueue 7, QueueOp.enqueue 8, QueueOp.shutdown,
            QueueOp.dequeue, QueueOp.dequeue, QueueOp.dequeue]).2) ∧
    (task_queue_step 0 ⟨[], true⟩ .dequeue).2 = .deqShutdown ∧
    task_queue_step 0 ⟨[5], true⟩ .dequeue = (⟨[], true⟩, .deq 5) := by
  have h := task_queue_fifo 0
    [QueueOp.enqueue 7, QueueOp.enqueue 8, QueueOp.shutdown,
      QueueOp.dequeue, QueueOp.dequeue, QueueOp.dequeue]
  exact ⟨h.1, (h.2.1 ⟨[], true⟩).mpr ⟨rfl, rfl⟩, h.2.2 ⟨[5], true⟩ 5 [] rfl⟩

/-! ## Claim C1: idempotency replay (guard modelled from the spec) -/

/-- Modelled from the spec: the state of an `IdempotencyRecord` (§3) — the
idempotency guard itself is absent from the repository sources (the spec
notes it is "underspecified/missing in the source"). -/
inductive RecState where
  | pending
  | completed (resp : Response)
  deriving DecidableEq, Repr

/-- Modelled from the spec: an `IdempotencyRecord` with creation and expiry
timestamps (`expiry = created + TTL`). -/
structure IdemRecord where
  state : RecState
  created : Nat
  expiry : Nat
  deriving DecidableEq, Repr

abbrev IdemStore := List (Chars × IdemRecord)

def storeLookup : IdemStore → Chars → Option IdemRecord
  | [], _ => none
  | e :: t, k => if e.1 = k then some e.2 else storeLookup t k

/-- Modelled from the spec: `check_and_reserve(key)` (§4.5).  Absent or
expired: insert a fresh `PENDING` record and return `Reserved`.  `COMPLETED`
and not expired: return `Hit` with the cached response.  `PENDING` and not
expired: fail fast (the spec's recommended 409 policy). -/
inductive GuardResult where
  | hit (resp : Response)
  | reserved
  | conflict
  deriving DecidableEq, Repr

def check_and_reserve (store : IdemStore) (k : Chars) (now ttl : Nat) :
    GuardResult × IdemStore :=
  match storeLookup store k with
  | none => (.reserved, (k, ⟨.pending, now, now + ttl⟩) :: store)
  | some rec =>
    if rec.expiry < now then
      (.reserved, (k, ⟨.pending, now, now + ttl⟩) :: store.filter (fun e => e.1 ≠ k))
    else
      match rec.state with
      | .completed r => (.hit r, store)
      | .pending => (.conflict, store)

/-- Modelled from the spec: `complete(key, Response)` transitions the
`PENDING` record for `key` to `COMPLETED` with the response snapshot. -/
def guard_complete (store : IdemStore) (k : Chars) (resp : Response) : IdemStore :=
  store.map (fun e => if e.1 = k then (e.1, { e.2 with state := .completed resp }) else e)

/-- Modelled from the spec: the guarded section of the connection pipeline
(§4.6) for a request carrying an idempotency key — `Hit` replays the cached
response without running the handler; `Reserved` runs the external handler
once and completes the record with its response.  The boolean records
whether the handler ran. -/
def guard_pipeline (ttl : Nat) (store : IdemStore) (now : Nat) (req : Request)
    (handler : Request → Response) : Response × IdemStore × Bool :=
  match check_and_reserve store req.fields.idempotency_key now ttl with
  | (.hit r, s) => (r, s, false)
  | (.reserved, s) =>
    let resp := handler req
    (resp, guard_complete s req.fields.idempotency_key resp, true)
  | (.conflict, s) =>
    (http_response_create_error 409 "Duplicate request in flight".toList, s, false)

/-- Claim C1 (spec-modelled): two requests with the same idempotency key
processed sequentially through the guarded pipeline, the second within the
TTL of the first, produce byte-identical responses (the same status code and
body — indeed the same response), with the external handler invoked exactly
once across the two. -/
theorem idempotency_replay (ttl t1 t2 : Nat) (req1 req2 : Request)
    (handler : Request → Response)
    (hkey : req2.fields.idempotency_key = req1.fields.idempotency_key)
    (httl : t2 ≤ t1 + ttl) :
    (guard_pipeline ttl
        (guard_pipeline ttl [] t1 req1 handler).2.1 t2 req2 handler).1 =
      (guard_pipeline ttl [] t1 req1 handler).1 ∧
    (guard_pipeline ttl [] t1 req1 handler).2.2 = true ∧
    (guard_pipeline ttl
        (guard_pipeline ttl [] t1 req1 handler).2.1 t2 req2 handler).2.2 = false := by
  have h1 : guard_pipeline ttl [] t1 req1 handler =
      (handler req1,
        [(req1.fields.idempotency_key,
          ⟨.completed (handler req1), t1, t1 + ttl⟩)], true) := by
    unfold guard_pipeline check_and_reserve storeLookup guard_complete
    simp
  have h2 : guard_pipeline ttl
      [(req1.fields.idempotency_key,
        ⟨.completed (handler req1), t1, t1 + ttl⟩)] t2 req2 handler =
      (handler req1,
        [(req1.fields.idempotency_key,
          ⟨.completed (handler req1), t1, t1 + ttl⟩)], false) := by
    unfold guard_pipeline check_and_reserve storeLookup
    rw [if_pos hkey.symm]
    dsimp only
    rw [if_neg (show ¬(t1 + ttl < t2) from by omega)]
  rw [h1]
  dsimp only
  rw [h2]
  exact ⟨rfl, rfl, rfl⟩

/-- A concrete POST request carrying the idempotency key `abc123`. -/
def sampleGuardRequest : Request :=
  ⟨⟨.post, "/payment".toList, .v11⟩,
    ⟨[("X-Idempotency-Key".toList, "abc123".toList)], 14, "abc123".toList, true⟩,
    "\x7b\"amount\":100\x7d".toList⟩

/-- Witness for C1: a concrete POST request replayed 5 time units later
within a TTL of 10 yields the same response with one handler run. -/
theorem idempotency_replay_witness :
    (guard_pipeline 10
        (guard_pipeline 10 [] 0 sampleGuardRequest (fun _ => sampleResponse)).2.1 5
        sampleGuardRequest (fun _ => sampleResponse)).1 =
      (guard_pipeline 10 [] 0 sampleGuardRequest (fun _ => sampleResponse)).1 ∧
    (guard_pipeline 10 [] 0 sampleGuardRequest (fun _ => sampleResponse)).2.2 = true ∧
    (guard_pipeline 10
        (guard_pipeline 10 [] 0 sampleGuardRequest (fun _ => sampleResponse)).2.1 5
        sampleGuardRequest (fun _ => sampleResponse)).2.2 = false :=
  idempotency_replay 10 0 5 sampleGuardRequest sampleGuardRequest
    (fun _ => sampleResponse) rfl (by omega)

/-! ## Claim C9: serialize/parse round trip -/

/-- Decimal integer parsing of a status-line token, as a client reads the
status code back. -/
def parseIntChars (s : Chars) : Option Int :=
  if s.head? = some '-' then
    if s.tail ≠ [] ∧ s.tail.all isDigitC = true then some (-(digitsVal s.tail : Int))
    else none
  else
    if s ≠ [] ∧ s.all isDigitC = true then some ((digitsVal s : Int))
    else none

/-- A client parse of serialized response bytes: split at the first blank
line, split off the status line, read the status code from its second
space-separated token, and parse the header section with the request-style
`parse_headers`; the remainder is the body. -/
def client_parse (bytes : Chars) : Option (Int × List (Chars × Chars) × Chars) :=
  match splitFirst crlf2 bytes with
  | none => none
  | some hb =>
    match splitFirst crlf hb.1 with
    | none => none
    | some sl =>
      match (spaceTokens sl.1)[1]? with
      | none => none
      | some codeTok =>
        match parseIntChars codeTok with
        | none => none
        | some code =>
          match parse_headers sl.2 with
          | none => none
          | some hf => some (code, hf.headers, hb.2)

/-- A response whose custom header value carries a leading space. -/
def rtBadResponse : Response :=
  ⟨200, "OK".toList, [("X-Test".toList, " v".toList)], "hi".toList⟩

/-- Claim C9, counterexample: serializing a response whose header value has
a leading space and re-parsing it as a client would does NOT return the same
headers — the request-style parser trims the value, so `("X-Test", " v")`
comes back as `("X-Test", "v")`. -/
theorem round_trip_counterexample :
    ("X-Test".toList, " v".toList) ∈ rtBadResponse.headers ∧
    ((http_response_serialize rtBadResponse "D".toList).bind client_parse).map
        (fun p => decide (("X-Test".toList, " v".toList) ∈ p.2.1)) = some false ∧
    ((http_response_serialize rtBadResponse "D".toList).bind client_parse).map
        (fun p => decide (("X-Test".toList, "v".toList) ∈ p.2.1)) = some true := by
  refine ⟨by decide, by decide, by decide⟩

theorem parseIntChars_intChars (i : Int) : parseIntChars (intChars i) = some i := by
  obtain ⟨hne, hdig, hval, -⟩ := natChars_spec i.toNat
  obtain ⟨hneN, hdigN, hvalN, -⟩ := natChars_spec (-i).toNat
  unfold intChars parseIntChars
  by_cases hi : i < 0
  · rw [if_pos hi]
    simp only [List.head?_cons, Option.some.injEq, List.tail_cons]
    rw [if_pos trivial, if_pos ⟨hneN, List.all_eq_true.2 hdigN⟩, hvalN]
    congr 1
    omega
  · rw [if_neg hi]
    have hhead : (natChars i.toNat).head? ≠ some '-' := by
      rcases hnc : natChars i.toNat with _ | ⟨c, t⟩
      · simp
      · have hc : isDigitC c = true := by
          have := hdig c
          rw [hnc] at this
          exact this (by simp)
        have := (ne_sign_of_isDigitC c hc).1
        simp only [List.head?_cons, ne_eq, Option.some.injEq]
        exact fun hh => this hh
    rw [if_neg hhead, if_pos ⟨hne, List.all_eq_true.2 hdig⟩, hval]
    congr 1
    omega

/-! ### Framing lemmas for the round trip -/

/-- Lines interleaved with leading CRLF separators:
`crlfLines [a, b] = "\r\n" ++ a ++ "\r\n" ++ b`. -/
def crlfLines : List Chars → Chars
  | [] => []
  | l :: t => crlf ++ l ++ crlfLines t

/-- Lines joined by CRLF with no trailing separator — the header section a
client isolates. -/
def crlfSec : List Chars → Chars
  | [] => []
  | l :: t => l ++ crlfLines t

/-- Each line followed by its CRLF terminator, as serialized on the wire. -/
def joinCRLF (ls : List Chars) : Chars := (ls.map (· ++ crlf)).flatten

theorem splitFirst_cons_skip (pat : Chars) (c : Char) (s : Chars)
    (h : pat.isPrefixOf (c :: s) = false) :
    splitFirst pat (c :: s) = (splitFirst pat s).map (fun r => (c :: r.1, r.2)) := by
  conv_lhs => rw [splitFirst]
  rw [h]
  simp

theorem isPrefixOf_append_self (p x : Chars) : p.isPrefixOf (p ++ x) = true := by
  induction p with
  | nil => simp [List.isPrefixOf]
  | cons c t ih => simp [List.isPrefixOf, ih]

theorem crlf2_not_prefix_cr (l rest : Chars) (hne : l ≠ []) (hl : noCRLF l = true) :
    crlf2.isPrefixOf ('\r' :: '\n' :: (l ++ rest)) = false := by
  rcases l with _ | ⟨c, t⟩
  · exact absurd rfl hne
  · have hc : c ≠ '\r' := (by
      have := forall_mem_of_all _ _ hl c (by simp)
      simp only [Bool.and_eq_true, decide_eq_true_eq] at this
      exact this.1)
    simp only [crlf2, List.isPrefixOf, List.cons_append]
    simp only [beq_self_eq_true, Bool.true_and]
    simp only [Bool.and_eq_false_iff]
    left
    simp only [beq_eq_false_iff_ne, ne_eq]
    exact fun hh => hc hh.symm

theorem crlf2_not_prefix_lf (s : Chars) : crlf2.isPrefixOf ('\n' :: s) = false := by
  simp [crlf2, List.isPrefixOf]

/-- Splitting the serialized head at the first blank line: with every line
nonempty and CRLF-free, the first `"\r\n\r\n"` is the one after the last
line. -/
theorem splitFirst_crlf2_lines (ls : List Chars) :
    ∀ body : Chars, (∀ l ∈ ls, l ≠ [] ∧ noCRLF l = true) →
      splitFirst crlf2 (crlf ++ joinCRLF ls ++ crlf ++ body) =
        some (crlfLines ls, body) := by
  induction ls with
  | nil =>
    intro body _
    have heq : crlf ++ joinCRLF [] ++ crlf ++ body = crlf2 ++ body := by
      simp [joinCRLF, crlf, crlf2]
    rw [heq, splitFirst_at_start crlf2 (crlf2 ++ body) (isPrefixOf_append_self _ _)]
    rw [List.drop_left]
    rfl
  | cons l t ih =>
    intro body hls
    obtain ⟨hne, hcrlf⟩ := hls l (by simp)
    have heq : crlf ++ joinCRLF (l :: t) ++ crlf ++ body =
        '\r' :: '\n' :: (l ++ (crlf ++ joinCRLF t ++ crlf ++ body)) := by
      simp [joinCRLF, crlf]
    rw [heq]
    rw [splitFirst_cons_skip _ _ _
      (crlf2_not_prefix_cr l _ hne hcrlf)]
    rw [splitFirst_cons_skip _ _ _ (crlf2_not_prefix_lf _)]
    rw [splitFirst_append_chunk crlf2 l _ '\r' rfl
      (fun c hc => by
        have := forall_mem_of_all _ _ hcrlf c hc
        simp only [Bool.and_eq_true, decide_eq_true_eq] at this
        exact this.1)]
    rw [ih body (fun x hx => hls x (by simp [hx]))]
    simp [crlfLines, crlf]

/-- The client's status-line split: the head section starts with the
CRLF-free status line. -/
theorem splitFirst_crlf_head (sl : Chars) (ls : List Chars) (l0 : Chars) (t : List Chars)
    (hsl : noCRLF sl = true) (hls : ls = l0 :: t) :
    splitFirst crlf (sl ++ crlfLines ls) = some (sl, crlfSec ls) := by
  subst hls
  rw [show sl ++ crlfLines (l0 :: t) = sl ++ (crlf ++ (l0 ++ crlfLines t)) from by
    simp [crlfLines]]
  rw [splitFirst_append_chunk crlf sl _ '\r' rfl
    (fun c hc => by
      have := forall_mem_of_all _ _ hsl c hc
      simp only [Bool.and_eq_true, decide_eq_true_eq] at this
      exact this.1)]
  rw [splitFirst_at_start crlf _ (isPrefixOf_append_self _ _)]
  rw [List.drop_left]
  simp [crlfSec]

/-- Recovering the lines of the client's header section. -/
theorem headerLines_crlfSec (ls : List Chars) :
    (∀ l ∈ ls, l ≠ [] ∧ noCRLF l = true) → headerLines (crlfSec ls) = ls := by
  induction ls with
  | nil => intro _; rfl
  | cons l t ih =>
    intro hls
    obtain ⟨hne, hcrlf⟩ := hls l (by simp)
    unfold crlfSec headerLines
    have hrest : ∀ d, (crlfLines t).head? = some d → (d = '\r' || d = '\n') = true := by
      rcases t with _ | ⟨l', t'⟩
      · intro d hd; simp [crlfLines] at hd
      · intro d hd
        have : (crlfLines (l' :: t')).head? = some '\r' := by simp [crlfLines, crlf]
        rw [this] at hd
        injection hd with hd
        subst hd
        rfl
    rw [tokenize_chunk _ l (crlfLines t) hne (mem_noCRLF l hcrlf) hrest]
    rcases t with _ | ⟨l', t'⟩
    · rfl
    · have : crlfLines (l' :: t') = '\r' :: '\n' :: crlfSec (l' :: t') := by
        simp [crlfLines, crlfSec, crlf]
      rw [this, tokenize_delim _ '\r' _ (by decide), tokenize_delim _ '\n' _ (by decide)]
      rw [show tokenize (fun c => c = '\r' || c = '\n') (crlfSec (l' :: t')) =
        headerLines (crlfSec (l' :: t')) from rfl]
      rw [ih (fun x hx => hls x (by simp [hx]))]

theorem isWS_eq_false_of_isDigitC (c : Char) (h : isDigitC c = true) :
    isWS c = false := by
  unfold isDigitC at h
  unfold isWS
  simp only [Bool.and_eq_true, decide_eq_true_eq] at h
  simp only [Bool.or_eq_false_iff, decide_eq_false_iff_not]
  omega

theorem dropWhile_eq_self_of_all (q : Char → Bool) (l : Chars)
    (h : ∀ c ∈ l, q c = false) : l.dropWhile q = l := by
  cases l with
  | nil => rfl
  | cons c t => rw [List.dropWhile_cons, if_neg (by simp [h c (by simp)])]

theorem wsTrim_eq_self_of_all (l : Chars) (h : ∀ c ∈ l, isWS c = false) :
    wsTrim l = l := by
  unfold wsTrim
  rw [dropWhile_eq_self_of_all _ _ h,
    dropWhile_eq_self_of_all _ _ (fun c hc => h c (List.mem_reverse.1 hc)),
    List.reverse_reverse]

theorem wsTrim_cons_space (v : Chars) : wsTrim (' ' :: v) = wsTrim v := by
  unfold wsTrim
  rw [List.dropWhile_cons, if_pos (by decide)]

/-- A well-formed bare header line contributes exactly its name and
value. -/
theorem lineNameVal_bare (n v : Chars) (hne : n ≠ [])
    (hcolon : ∀ c ∈ n, c ≠ ':') (htn : wsTrim n = n) (htv : wsTrim v = v) :
    lineNameVal (n ++ ": ".toList ++ v) = some (n, v) := by
  unfold lineNameVal
  rw [show n ++ ": ".toList ++ v = n ++ ':' :: (' ' :: v) from by simp]
  rw [splitFirst_colon n _ hcolon]
  dsimp only
  rw [wsTrim_cons_space, htv, htn]
  rw [if_neg (by simpa using hne)]

theorem map_id_of_mem (f : Chars × Chars → Chars × Chars)
    (l : List (Chars × Chars)) (h : ∀ x ∈ l, f x = x) : l.map f = l := by
  induction l with
  | nil => rfl
  | cons x t ih =>
    rw [List.map_cons, h x (by simp), ih (fun y hy => h y (by simp [hy]))]

theorem intChars_ne_nil (i : Int) : intChars i ≠ [] := by
  unfold intChars
  split
  · simp
  · exact (natChars_spec _).1

theorem intChars_chars (i : Int) (c : Char) (hc : c ∈ intChars i) :
    isDigitC c = true ∨ c = '-' := by
  unfold intChars at hc
  by_cases hi : i < 0
  · rw [if_pos hi] at hc
    rcases List.mem_cons.1 hc with rfl | hc
    · exact Or.inr rfl
    · exact Or.inl ((natChars_spec _).2.1 c hc)
  · rw [if_neg hi] at hc
    exact Or.inl ((natChars_spec _).2.1 c hc)

theorem intChars_no_space (i : Int) : ∀ c ∈ intChars i, (c = ' ') = False := by
  intro c hc
  simp only [eq_iff_iff, iff_false]
  rcases intChars_chars i c hc with h | h
  · intro hcc
    subst hcc
    exact absurd h (by decide)
  · subst h
    decide

theorem intChars_noCRLF (i : Int) : noCRLF (intChars i) = true := by
  refine List.all_eq_true.2 (fun c hc => ?_)
  rcases intChars_chars i c hc with h | h
  · simp only [Bool.and_eq_true, decide_eq_true_eq, ne_eq]
    constructor <;> intro hcc <;> subst hcc <;> exact absurd h (by decide)
  · subst h
    decide

theorem noSpace_of_all (l : Chars) (h : l.all (fun c => c ≠ ' ') = true) :
    ∀ c ∈ l, decide (c = ' ') = false := by
  intro c hc
  have := forall_mem_of_all _ _ h c hc
  simpa using this

/-- The status code is the second space-separated token of the status
line. -/
theorem spaceTokens_statusLine (i : Int) (msg : Chars) :
    (spaceTokens ("HTTP/1.1 ".toList ++ intChars i ++ [' '] ++ msg))[1]? =
      some (intChars i) := by
  rw [show "HTTP/1.1 ".toList ++ intChars i ++ [' '] ++ msg =
    "HTTP/1.1".toList ++ (' ' :: (intChars i ++ (' ' :: msg))) from by simp]
  unfold spaceTokens
  rw [tokenize_chunk _ "HTTP/1.1".toList _ (by simp)
    (noSpace_of_all _ (by decide)) (fun d hd => by injection hd with hd; subst hd; rfl)]
  rw [tokenize_delim _ ' ' _ (by decide)]
  rw [tokenize_chunk _ (intChars i) (' ' :: msg) (intChars_ne_nil i)
    (fun c hc => by simpa using intChars_no_space i c hc)
    (fun d hd => by injection hd with hd; subst hd; rfl)]
  simp

theorem noCRLF_natChars (n : Nat) : noCRLF (natChars n) = true := by
  refine List.all_eq_true.2 (fun c hc => ?_)
  have h := (natChars_spec n).2.1 c hc
  unfold isDigitC at h
  simp only [Bool.and_eq_true, decide_eq_true_eq] at h
  simp only [Bool.and_eq_true, decide_eq_true_eq, ne_eq]
  constructor <;> intro hcc <;> subst hcc <;> exact absurd h (by decide)

theorem wsTrim_natChars (n : Nat) : wsTrim (natChars n) = natChars n :=
  wsTrim_eq_self_of_all _ (fun c hc => isWS_eq_false_of_isDigitC c ((natChars_spec n).2.1 c hc))

theorem natChars_length_le_20 (n : Nat) (h : n < 2 ^ 64) : (natChars n).length ≤ 20 := by
  refine (natChars_spec n).2.2.2 20 (by omega) ?_
  have h20 : (2 : Nat) ^ 64 < 10 ^ 20 := by norm_num
  omega

/-- The header lines of a serialized response, without their CRLF
terminators: `Server`, `Date`, `Content-Length`, then the caller headers. -/
def injectedLines (r : Response) (date : Chars) : List Chars :=
  "Server: C-HTTP-Payment-Server/1.0".toList :: ("Date: ".toList ++ date) ::
    ("Content-Length: ".toList ++ natChars r.body.length) ::
    r.headers.map (fun nv => nv.1 ++ ": ".toList ++ nv.2)

theorem serialize_decompose (r : Response) (date out : Chars)
    (h : http_response_serialize r date = some out) :
    out = ("HTTP/1.1 ".toList ++ intChars r.status_code ++ [' '] ++ r.status_message) ++
      (crlf ++ joinCRLF (injectedLines r date) ++ (crlf ++ r.body)) := by
  rw [serialize_eq_flatten r date out h, serializePieces_flatten]
  unfold statusLine injectedLines joinCRLF headerLine serverHeader
  rw [show "Server: C-HTTP-Payment-Server/1.0\r\n".toList =
    "Server: C-HTTP-Payment-Server/1.0".toList ++ crlf from by decide]
  simp [List.append_assoc, List.map_map, Function.comp_def]

theorem injectedLines_ok (r : Response) (date : Chars)
    (hdate : noCRLF date = true)
    (hhdr : ∀ nv ∈ r.headers,
      nv.1 ≠ [] ∧ noCRLF nv.1 = true ∧ (∀ c ∈ nv.1, c ≠ ':') ∧ wsTrim nv.1 = nv.1 ∧
      nv.1.length < MAX_HEADER_NAME_LENGTH ∧
      noCRLF nv.2 = true ∧ wsTrim nv.2 = nv.2 ∧ nv.2.length < MAX_HEADER_VALUE_LENGTH) :
    ∀ l ∈ injectedLines r date, l ≠ [] ∧ noCRLF l = true := by
  intro l hl
  unfold injectedLines at hl
  rcases List.mem_cons.1 hl with rfl | hl
  · exact ⟨by decide, by decide⟩
  · rcases List.mem_cons.1 hl with rfl | hl
    · refine ⟨by simp, ?_⟩
      unfold noCRLF
      rw [List.all_append]
      simp only [Bool.and_eq_true]
      exact ⟨by decide, hdate⟩
    · rcases List.mem_cons.1 hl with rfl | hl
      · refine ⟨by simp, ?_⟩
        unfold noCRLF
        rw [List.all_append]
        simp only [Bool.and_eq_true]
        exact ⟨by decide, noCRLF_natChars _⟩
      · obtain ⟨nv, hnv, rfl⟩ := List.mem_map.1 hl
        obtain ⟨hn1, hn2, -, -, -, hv1, -, -⟩ := hhdr nv hnv
        refine ⟨by simp [hn1], ?_⟩
        unfold noCRLF
        rw [List.all_append, List.all_append]
        simp only [Bool.and_eq_true]
        exact ⟨⟨hn2, by decide⟩, hv1⟩

theorem filterMap_bare (hs : List (Chars × Chars))
    (h : ∀ nv ∈ hs,
      nv.1 ≠ [] ∧ noCRLF nv.1 = true ∧ (∀ c ∈ nv.1, c ≠ ':') ∧ wsTrim nv.1 = nv.1 ∧
      nv.1.length < MAX_HEADER_NAME_LENGTH ∧
      noCRLF nv.2 = true ∧ wsTrim nv.2 = nv.2 ∧ nv.2.length < MAX_HEADER_VALUE_LENGTH) :
    (hs.map (fun nv => nv.1 ++ ": ".toList ++ nv.2)).filterMap lineNameVal = hs := by
  induction hs with
  | nil => rfl
  | cons nv t ih =>
    obtain ⟨hn1, -, hcolon, htn, -, -, htv, -⟩ := h nv (by simp)
    rw [List.map_cons, List.filterMap_cons,
      lineNameVal_bare nv.1 nv.2 hn1 hcolon htn htv]
    rw [ih (fun x hx => h x (by simp [hx]))]

/-- Claim C9 (amended): for a response whose caller-supplied header names
are nonempty, colon-free, CRLF-free, whitespace-trimmed and within the name
bound, whose values are CRLF-free, whitespace-trimmed and within the value
bound, with at most 61 caller headers, a CRLF-free status message, a
CRLF-free trimmed date within the value bound, and a body shorter than
`2^64` bytes: client-parsing the serialized bytes yields the same status
code, the injected `Server`/`Date`/`Content-Length` headers followed by the
caller-supplied headers unchanged and in order, and the same body.  (The
counterexample shows the claim fails without the trimming restriction: the
request-style parser trims header values.) -/
theorem serialize_client_roundtrip (r : Response) (date out : Chars)
    (hser : http_response_serialize r date = some out)
    (hmsg : noCRLF r.status_message = true)
    (hdate : noCRLF date = true) (hdateTrim : wsTrim date = date)
    (hdateLen : date.length < MAX_HEADER_VALUE_LENGTH)
    (hbody : r.body.length < 2 ^ 64)
    (hcount : r.headers.length ≤ 61)
    (hhdr : ∀ nv ∈ r.headers,
      nv.1 ≠ [] ∧ noCRLF nv.1 = true ∧ (∀ c ∈ nv.1, c ≠ ':') ∧ wsTrim nv.1 = nv.1 ∧
      nv.1.length < MAX_HEADER_NAME_LENGTH ∧
      noCRLF nv.2 = true ∧ wsTrim nv.2 = nv.2 ∧ nv.2.length < MAX_HEADER_VALUE_LENGTH) :
    client_parse out = some (r.status_code,
      ("Server".toList, "C-HTTP-Payment-Server/1.0".toList) ::
        ("Date".toList, date) ::
        ("Content-Length".toList, natChars r.body.length) :: r.headers,
      r.body) := by
  have hout := serialize_decompose r date out hser
  have hlsok := injectedLines_ok r date hdate hhdr
  have hSL : noCRLF ("HTTP/1.1 ".toList ++ intChars r.status_code ++ [' '] ++
      r.status_message) = true := by
    unfold noCRLF
    rw [List.all_append, List.all_append, List.all_append]
    simp only [Bool.and_eq_true]
    exact ⟨⟨⟨by decide, intChars_noCRLF _⟩, by decide⟩, hmsg⟩
  have hSLnoCR : ∀ c ∈ "HTTP/1.1 ".toList ++ intChars r.status_code ++ [' '] ++
      r.status_message, c ≠ '\r' := by
    intro c hc
    have := forall_mem_of_all _ _ hSL c hc
    simp only [Bool.and_eq_true, decide_eq_true_eq] at this
    exact this.1
  have hsplit2 : splitFirst crlf2 out =
      some (("HTTP/1.1 ".toList ++ intChars r.status_code ++ [' '] ++
        r.status_message) ++ crlfLines (injectedLines r date), r.body) := by
    rw [hout]
    rw [splitFirst_append_chunk crlf2 _ _ '\r' rfl hSLnoCR]
    rw [show crlf ++ joinCRLF (injectedLines r date) ++ (crlf ++ r.body) =
      crlf ++ joinCRLF (injectedLines r date) ++ crlf ++ r.body from by
        simp [List.append_assoc]]
    rw [splitFirst_crlf2_lines (injectedLines r date) r.body hlsok]
    rfl
  have hsplit1 : splitFirst crlf
      (("HTTP/1.1 ".toList ++ intChars r.status_code ++ [' '] ++ r.status_message) ++
        crlfLines (injectedLines r date)) =
      some ("HTTP/1.1 ".toList ++ intChars r.status_code ++ [' '] ++ r.status_message,
        crlfSec (injectedLines r date)) :=
    splitFirst_crlf_head _ (injectedLines r date) _ _ hSL rfl
  have hlines : headerLines (crlfSec (injectedLines r date)) = injectedLines r date :=
    headerLines_crlfSec _ hlsok
  have heff : (injectedLines r date).filterMap lineNameVal =
      ("Server".toList, "C-HTTP-Payment-Server/1.0".toList) ::
        ("Date".toList, date) ::
        ("Content-Length".toList, natChars r.body.length) :: r.headers := by
    unfold injectedLines
    rw [List.filterMap_cons, show lineNameVal "Server: C-HTTP-Payment-Server/1.0".toList =
      some ("Server".toList, "C-HTTP-Payment-Server/1.0".toList) from by decide]
    rw [List.filterMap_cons, show "Date: ".toList ++ date =
      "Date".toList ++ ": ".toList ++ date from by simp [show "Date: ".toList =
        "Date".toList ++ ": ".toList from by decide]]
    rw [lineNameVal_bare "Date".toList date (by decide) (noColon_of_all _ (by decide))
      (by decide) hdateTrim]
    rw [List.filterMap_cons, show "Content-Length: ".toList ++ natChars r.body.length =
      "Content-Length".toList ++ ": ".toList ++ natChars r.body.length from by
        simp [show "Content-Length: ".toList = "Content-Length".toList ++ ": ".toList from
          by decide]]
    rw [lineNameVal_bare "Content-Length".toList (natChars r.body.length) (by decide)
      (noColon_of_all _ (by decide)) (by decide) (wsTrim_natChars _)]
    rw [filterMap_bare r.headers hhdr]
  obtain ⟨hiff, hheaders⟩ := parseHeaderLoop_spec
    (headerLines (crlfSec (injectedLines r date))) initHeaderFields
  have hcond : (∀ nv ∈ (headerLines (crlfSec (injectedLines r date))).filterMap lineNameVal,
      nv.1.length < MAX_HEADER_NAME_LENGTH) ∧
      (1 ≤ ((headerLines (crlfSec (injectedLines r date))).filterMap lineNameVal).length →
        initHeaderFields.headers.length +
          ((headerLines (crlfSec (injectedLines r date))).filterMap lineNameVal).length ≤
          MAX_HEADERS) := by
    rw [hlines, heff]
    constructor
    · intro nv hnv
      rcases List.mem_cons.1 hnv with rfl | hnv
      · exact (by decide : ("Server".toList : Chars).length < MAX_HEADER_NAME_LENGTH)
      · rcases List.mem_cons.1 hnv with rfl | hnv
        · exact (by decide : ("Date".toList : Chars).length < MAX_HEADER_NAME_LENGTH)
        · rcases List.mem_cons.1 hnv with rfl | hnv
          · exact (by decide :
              ("Content-Length".toList : Chars).length < MAX_HEADER_NAME_LENGTH)
          · exact (hhdr nv hnv).2.2.2.2.1
    · intro _
      simp only [initHeaderFields, List.length_cons, List.length_nil]
      unfold MAX_HEADERS
      omega
  obtain ⟨st, hst⟩ := Option.isSome_iff_exists.1 (hiff.mpr hcond)
  have hsthdr : st.headers =
      ("Server".toList, "C-HTTP-Payment-Server/1.0".toList) ::
        ("Date".toList, date) ::
        ("Content-Length".toList, natChars r.body.length) :: r.headers := by
    have := hheaders st hst
    rw [hlines, heff] at this
    rw [this]
    simp only [initHeaderFields, List.nil_append]
    rw [List.map_cons, List.map_cons, List.map_cons]
    rw [show (("Server".toList, "C-HTTP-Payment-Server/1.0".toList) :
        Chars × Chars).2.take (MAX_HEADER_VALUE_LENGTH - 1) =
      "C-HTTP-Payment-Server/1.0".toList from by decide]
    rw [show (("Date".toList, date) : Chars × Chars).2.take (MAX_HEADER_VALUE_LENGTH - 1) =
      date from List.take_of_length_le (by
        show date.length ≤ MAX_HEADER_VALUE_LENGTH - 1
        unfold MAX_HEADER_VALUE_LENGTH at hdateLen ⊢
        omega)]
    rw [show (("Content-Length".toList, natChars r.body.length) :
        Chars × Chars).2.take (MAX_HEADER_VALUE_LENGTH - 1) =
      natChars r.body.length from List.take_of_length_le (by
        show (natChars r.body.length).length ≤ MAX_HEADER_VALUE_LENGTH - 1
        have := natChars_length_le_20 r.body.length hbody
        unfold MAX_HEADER_VALUE_LENGTH
        omega)]
    rw [map_id_of_mem _ r.headers (fun nv hnv => by
      have hlen := (hhdr nv hnv).2.2.2.2.2.2.2
      have : nv.2.take (MAX_HEADER_VALUE_LENGTH - 1) = nv.2 :=
        List.take_of_length_le (by unfold MAX_HEADER_VALUE_LENGTH at hlen ⊢; omega)
      rw [this])]
  unfold client_parse
  rw [hsplit2]
  dsimp only
  rw [hsplit1]
  dsimp only
  rw [spaceTokens_statusLine r.status_code r.status_message]
  dsimp only
  rw [parseIntChars_intChars r.status_code]
  dsimp only
  rw [show parse_headers (crlfSec (injectedLines r date)) =
    parseHeaderLoop (headerLines (crlfSec (injectedLines r date))) initHeaderFields from rfl]
  rw [hst]
  dsimp only
  rw [hsthdr]

/-- Witness for C9 (amended): the round trip at `sampleResponse` with date
`D`. -/
theorem serialize_client_roundtrip_witness :
    ∃ out, http_response_serialize sampleResponse "D".toList = some out ∧
      client_parse out = some ((200 : Int),
        ("Server".toList, "C-HTTP-Payment-Server/1.0".toList) ::
          ("Date".toList, "D".toList) ::
          ("Content-Length".toList, natChars 2) ::
          [("Content-Type".toList, "application/json".toList)],
        "hi".toList) := by
  have h : (http_response_serialize sampleResponse "D".toList).isSome = true := by decide
  obtain ⟨out, hout⟩ := Option.isSome_iff_exists.1 h
  refine ⟨out, hout, ?_⟩
  exact serialize_client_roundtrip sampleResponse "D".toList out hout
    (by decide) (by decide) (by decide) (by decide) (by decide) (by decide)
    (fun nv hnv => by
      rcases List.mem_singleton.1 hnv with rfl
      exact ⟨by decide, by decide, noColon_of_all _ (by decide), by decide, by decide,
        by decide, by decide, by decide⟩)

end NanoServe
